import Mathlib

/-!
The denominator actor (`actors/denominator/denominator.go`)

A shallow embedding of the control loop `Start`: the local variables of `Start`
become the fields of `State`, one iteration of the `for { select { ... } }`
loop becomes `step`, and a finite schedule of events is executed by `run`.

Code that `Start` calls but that lives in other packages (`handlers`, `ribbon`,
`flow`, `archaius`, and the standard library parser `time.ParseDuration`) is
collected in `Env` and every general theorem quantifies over it.
-/

namespace Denominator

/-! ## Machine integers and decimal formatting -/

/-- Go `int` on a 64-bit platform: two's complement wrap-around of a mathematical integer. -/
def wrapInt (x : Int) : Int := (x + 2 ^ 63) % 2 ^ 64 - 2 ^ 63

/-- Largest value of a 64-bit `int`. -/
def maxInt : Int := 2 ^ 63 - 1

/-- The byte `'0' + d`. -/
def digitByte (d : Nat) : Char := Char.ofNat (48 + d)

/-- Digit loop of the decimal integer formatter: while `u >= 10` the lowest digit is
    written in front of the buffer and `u` is divided by ten; the last digit closes it. -/
def fmtDigits : Nat → Nat → List Char → List Char
  | 0, u, buf => digitByte u :: buf
  | fuel + 1, u, buf =>
    if 10 ≤ u then fmtDigits fuel (u / 10) (digitByte (u % 10) :: buf)
    else digitByte u :: buf

/-- Decimal digits of a natural number, most significant first. -/
def fmtNat (u : Nat) : List Char := fmtDigits u u []

/-- The verb `%v` applied to an `int`: decimal, with a leading minus sign when negative. -/
def fmtInt (x : Int) : String :=
  if x < 0 then String.mk (Char.ofNat 45 :: fmtNat x.natAbs) else String.mk (fmtNat x.toNat)

/-- The key of a write, `fmt.Sprintf("Why%v%v", q, q*q)`, with the product taken in `int`. -/
def whyKey (q : Int) : String := "Why" ++ fmtInt q ++ fmtInt (wrapInt (q * q))

/-- The payload of a write, `fmt.Sprintf("Why%v%v me", w, w*w)`. -/
def whyPayload (w : Int) : String := "Why" ++ fmtInt w ++ fmtInt (wrapInt (w * w)) ++ " me"

/-- The part of a payload before its first space: the key of a `"key value"` payload. -/
def keyOf (payload : String) : String :=
  String.mk (payload.data.takeWhile (fun c => c != Char.ofNat 32))

/-- Model of `rand.Intn(n)`: panics (`none`) when `n <= 0`, otherwise a value in `[0, n)`; the
    raw random number `r` is supplied by the environment. -/
def Intn (r : Nat) (n : Int) : Option Int :=
  if n ≤ 0 then none else some ((r : Int) % n)

/-! ## Durations and tickers -/

/-- The type `time.Duration`: a count of nanoseconds. -/
abbrev Duration := Int

/-- The type `time.Time`, as nanoseconds since some epoch. -/
abbrev Time := Nat

def Nanosecond : Duration := 1
def Microsecond : Duration := 1000 * Nanosecond
def Millisecond : Duration := 1000 * Microsecond
def Second : Duration := 1000 * Millisecond
def Minute : Duration := 60 * Second
def Hour : Duration := 60 * Minute

/-- A `*time.Ticker` object: its period and whether it is still armed. -/
structure Ticker where
  period : Duration
  armed : Bool
deriving DecidableEq, Repr

/-! ## Messages -/

/-- A `chan gotocol.Message` value: the nil channel or a mailbox. -/
inductive Chan where
  | nil : Chan
  | mk (id : Nat) : Chan
deriving DecidableEq, Repr

/-- Modelled from the spec: the message kinds of `gotocol` (the package is not part of the
    sources at hand); section 6 lists exactly these nine. -/
inductive Impositions where
  | Hello | Inform | NameDrop | Forget | Chat | GetRequest | Put | GetResponse | Goodbye
deriving DecidableEq, Repr

/-- Modelled from the spec: the trace context of `gotocol`, either the nil context of a
    context-free message or an identifier made by `gotocol.NewTrace`. -/
inductive Context where
  | NilContext : Context
  | trace (id : Nat) : Context
deriving DecidableEq, Repr

/-- The envelope `gotocol.Message`, fields in the order of its composite literals in `Start`. -/
structure Message where
  Imposition : Impositions
  ResponseChan : Chan
  Sent : Time
  Ctx : Context
  Intention : String
deriving DecidableEq, Repr

/-- Modelled from the spec: a histogram handle of `collect` (label and recorded samples). -/
structure Hist where
  label : String
  samples : List Int
deriving DecidableEq, Repr

/-- Modelled from the spec: `collect.NewHist(label)` creates an empty histogram. -/
def NewHist (label : String) : Hist := { label := label, samples := [] }

/-- Everything an iteration does that is visible outside the local variables, in order. -/
inductive Effect where
  /-- A channel send `ch <- msg` -/
  | send (dst : Chan) (msg : Message) : Effect
  /-- An asynchronous send `msg.GoSend(dst)` -/
  | goSend (dst : Chan) (msg : Message) : Effect
  /-- The call `flow.AnnotateSend(msg, name)` -/
  | annotateSend (msg : Message) (name : String) : Effect
  /-- The call `log.Printf` of the Goodbye branch -/
  | logGoingAway (name : String) (chatrate : Duration) : Effect
  /-- The call `collect.SaveHist(h, name, suffix)` -/
  | saveHist (h : Hist) (name : String) (suffix : String) : Effect
  /-- The call `collect.SaveAllGuesses(name)` -/
  | saveAllGuesses (name : String) : Effect
deriving DecidableEq, Repr

/-- The outbound messages among some effects, each with its destination. -/
def sends : List Effect → List (Chan × Message)
  | [] => []
  | Effect.send dst m :: es => (dst, m) :: sends es
  | Effect.goSend dst m :: es => (dst, m) :: sends es
  | _ :: es => sends es

/-! ## Local variables of `Start` -/

/-- A Go map with string keys, as its list of entries (iteration visits them in list order). -/
abbrev GoMap (V : Type) := List (String × V)

/-- The assignment `m[k] = v`. -/
def GoMap.set {V : Type} : GoMap V → String → V → GoMap V
  | [], k, v => [(k, v)]
  | (k', v') :: rest, k, v =>
    if k' = k then (k, v) :: rest else (k', v') :: GoMap.set rest k v

/-- Modelled from the spec: the endpoint router of `ribbon`, a set of named mailboxes. -/
abbrev Router := GoMap Chan

/-- The local variables of `Start`; `tickers` holds every ticker object created so far and
    `eurekaTicker`, `chatTicker` point into it. -/
structure State where
  microservices : Router
  dependencies : GoMap Time
  parent : Chan
  name : String
  nethist : Hist
  resphist : Hist
  servhist : Hist
  rthist : Hist
  eureka : GoMap Chan
  chatrate : Duration
  tickers : List Ticker
  eurekaTicker : Nat
  chatTicker : Nat
  w : Int
deriving DecidableEq, Repr

/-- The code `Start` calls in other packages, and the configuration it reads. Each
    handler also receives the current time, which the Go code reads from the clock. -/
structure Env where
  /-- The setting `archaius.Conf.EurekaPoll` -/
  EurekaPoll : String
  /-- The setting `archaius.Conf.Msglog` -/
  Msglog : Bool
  /-- The parser `time.ParseDuration`; `none` stands for a non-nil error -/
  ParseDuration : String → Option Duration
  /-- The pick `microservices.Random()`, from the router and a random seed -/
  Random : Router → Nat → Chan
  /-- The handler `handlers.Inform(msg, name, listener)`: the channel it returns and what it sends -/
  Inform : Time → Message → String → Chan → Chan × List Effect
  /-- The handler `handlers.NameDrop(&dependencies, microservices, msg, name, listener, eureka, true)` -/
  NameDrop : Time → GoMap Time → Router → Message → String → Chan → GoMap Chan →
    GoMap Time × Router × GoMap Chan × List Effect
  /-- The handler `handlers.Forget(&dependencies, microservices, msg)` -/
  Forget : Time → GoMap Time → Router → Message → GoMap Time × Router × List Effect
  /-- The recorder `flow.Instrument(msg, name, nethist)` -/
  Instrument : Time → Message → String → Hist → Hist
  /-- The recorder `flow.End(msg, resphist, servhist, rthist)` -/
  End : Time → Message → Hist → Hist → Hist → Hist × Hist × Hist

/-- Model of `time.NewTicker(d)`: panics (`none`) on a non-positive period, otherwise allocates an
    armed ticker and returns the enlarged heap with the new pointer. -/
def NewTicker (heap : List Ticker) (d : Duration) : Option (List Ticker × Nat) :=
  if d ≤ 0 then none else some (heap ++ [{ period := d, armed := true }], heap.length)

/-- The call `t.Stop()` on the ticker at pointer `i`. -/
def stopTicker (heap : List Ticker) (i : Nat) : List Ticker :=
  heap.modify (fun t => { t with armed := false }) i

/-- Whether the ticker at pointer `i` is armed. -/
def tickerArmed (heap : List Ticker) (i : Nat) : Bool :=
  match heap.get? i with
  | some t => t.armed
  | none => false

/-! ## One iteration of the loop -/

/-- How an iteration leaves the loop: it goes round again, `Start` returns, a call
    panics, or a send on a nil channel blocks for ever. -/
inductive Status where
  | running | returned | panicked | blocked
deriving DecidableEq, Repr

/-- Result of an iteration: the new local variables, what was emitted, and the status. -/
structure Step where
  state : State
  out : List Effect
  status : Status
deriving DecidableEq, Repr

/-- What the `select` can receive: a message on `listener`, a tick of `eurekaTicker`, or a
    tick of `chatTicker`. Clock readings, the fresh trace context and the raw random
    numbers consumed by the iteration are part of the event. -/
inductive Event where
  /-- The case `msg := <-listener` -/
  | recv (msg : Message) (now : Time) : Event
  /-- The case `<-eurekaTicker.C`; `now dep zone` is the clock reading of one send,
      `visitD` the order in which `range dependencies` visits the entries of the map and
      `visitE dep` the order in which `range eureka` visits them for that dependency
      (Go chooses the iteration order of a map afresh for every range) -/
  | eurekaTick (now : String → String → Time) (visitD : GoMap Time → GoMap Time)
      (visitE : String → GoMap Chan → GoMap Chan) : Event
  /-- The case `<-chatTicker.C` with the seed of `Random()`, the result of `NewTrace()`,
      the clock, and the raw draws behind `rand.Intn(3)` and `rand.Intn(w)` -/
  | chatTick (seed : Nat) (ctx : Context) (now : Time) (r3 : Nat) (rq : Nat) : Event

/-- The state of `Start` when the loop is entered; `none` when `time.NewTicker` panics
    because the configured poll interval is not positive (or does not parse, which
    leaves `ep` zero). -/
def init (env : Env) : Option State :=
  let ep := (env.ParseDuration env.EurekaPoll).getD 0
  match NewTicker [] ep with
  | none => none
  | some (heap1, eurekaTicker) =>
    match NewTicker heap1 Hour with
    | none => none
    | some (heap2, chatTicker) =>
      some
        { microservices := []
          dependencies := []
          parent := Chan.nil
          name := ""
          nethist := NewHist ""
          resphist := NewHist ""
          servhist := NewHist ""
          rthist := NewHist ""
          eureka := []
          chatrate := 0
          tickers := stopTicker heap2 chatTicker
          eurekaTicker := eurekaTicker
          chatTicker := chatTicker
          w := 1 }

/-- The branch `case msg := <-listener` (lines 37 to 78). -/
def recv (env : Env) (listener : Chan) (s0 : State) (msg : Message) (now : Time) : Step :=
  let s := { s0 with nethist := env.Instrument now msg s0.name s0.nethist }
  match msg.Imposition with
  | Impositions.Hello =>
    if s.name = "" then
      { state :=
          { s with
            parent := msg.ResponseChan
            name := msg.Intention
            nethist := NewHist (msg.Intention ++ "_net")
            resphist := NewHist (msg.Intention ++ "_resp")
            servhist := NewHist (msg.Intention ++ "_serv")
            rthist := NewHist (msg.Intention ++ "_rt") }
        out := []
        status := Status.running }
    else { state := s, out := [], status := Status.running }
  | Impositions.Inform =>
    let r := env.Inform now msg s.name listener
    { state := { s with eureka := s.eureka.set msg.Intention r.1 }
      out := r.2
      status := Status.running }
  | Impositions.NameDrop =>
    let r := env.NameDrop now s.dependencies s.microservices msg s.name listener s.eureka
    { state := { s with dependencies := r.1, microservices := r.2.1, eureka := r.2.2.1 }
      out := r.2.2.2
      status := Status.running }
  | Impositions.Forget =>
    let r := env.Forget now s.dependencies s.microservices msg
    { state := { s with dependencies := r.1, microservices := r.2.1 }
      out := r.2.2
      status := Status.running }
  | Impositions.Chat =>
    match env.ParseDuration msg.Intention with
    | some d =>
      if Millisecond ≤ d ∧ d ≤ Hour then
        match NewTicker s.tickers d with
        | some (heap, t) =>
          { state := { s with chatrate := d, tickers := heap, chatTicker := t }
            out := []
            status := Status.running }
        | none => { state := { s with chatrate := d }, out := [], status := Status.panicked }
      else { state := s, out := [], status := Status.running }
    | none => { state := s, out := [], status := Status.running }
  | Impositions.GetResponse =>
    let r := env.End now msg s.resphist s.servhist s.rthist
    { state := { s with resphist := r.1, servhist := r.2.1, rthist := r.2.2 }
      out := []
      status := Status.running }
  | Impositions.Goodbye =>
    { state := s
      out :=
        (if env.Msglog then [Effect.logGoingAway s.name s.chatrate] else []) ++
        [ Effect.saveHist s.nethist s.name "_net",
          Effect.saveHist s.resphist s.name "_resp",
          Effect.saveHist s.servhist s.name "_serv",
          Effect.saveHist s.rthist s.name "_rt",
          Effect.saveAllGuesses s.name,
          Effect.goSend s.parent
            { Imposition := Impositions.Goodbye, ResponseChan := Chan.nil, Sent := now,
              Ctx := Context.NilContext, Intention := s.name } ]
      status := Status.returned }
  | Impositions.GetRequest => { state := s, out := [], status := Status.running }
  | Impositions.Put => { state := s, out := [], status := Status.running }

/-- The inner loop `for _, ch := range eureka { ch <- Message{...dep} }` (lines 81 to 83):
    the sends made, and whether the loop ran to its end (a nil channel blocks it). -/
def queryRegistries (listener : Chan) (now : String → String → Time) (dep : String) :
    GoMap Chan → List Effect × Bool
  | [] => ([], true)
  | (zone, ch) :: rest =>
    if ch = Chan.nil then ([], false)
    else
      let r := queryRegistries listener now dep rest
      (Effect.send ch
          { Imposition := Impositions.GetRequest, ResponseChan := listener,
            Sent := now dep zone, Ctx := Context.NilContext, Intention := dep } :: r.1, r.2)

/-- The outer loop `for dep := range dependencies { ... }` (lines 80 to 84), on the
    dependencies in the order the range visits them; the inner range visits `eureka` in
    the order `visitE dep`. -/
def queryDependencies (listener : Chan) (now : String → String → Time)
    (visitE : String → GoMap Chan → GoMap Chan) (eureka : GoMap Chan) :
    GoMap Time → List Effect × Bool
  | [] => ([], true)
  | (dep, _) :: rest =>
    let r := queryRegistries listener now dep (visitE dep eureka)
    if r.2 then
      let r2 := queryDependencies listener now visitE eureka rest
      (r.1 ++ r2.1, r2.2)
    else (r.1, false)

/-- The branch `case <-eurekaTicker.C` (lines 79 to 84). -/
def eurekaTick (listener : Chan) (s : State) (now : String → String → Time)
    (visitD : GoMap Time → GoMap Time) (visitE : String → GoMap Chan → GoMap Chan) : Step :=
  let r := queryDependencies listener now visitE s.eureka (visitD s.dependencies)
  { state := s, out := r.1, status := if r.2 then Status.running else Status.blocked }

/-- The branch `case <-chatTicker.C` (lines 85 to 104). The draw `rand.Intn(3)` is
    `r3 % 3`, so the last arm of the match is `case 2`. -/
def chatTick (env : Env) (listener : Chan) (s : State)
    (seed : Nat) (ctx : Context) (now : Time) (r3 : Nat) (rq : Nat) : Step :=
  let c := env.Random s.microservices seed
  if c ≠ Chan.nil then
    match r3 % 3 with
    | 0 =>
      let sm : Message :=
        { Imposition := Impositions.GetRequest, ResponseChan := listener, Sent := now,
          Ctx := ctx, Intention := "why?" }
      { state := s, out := [Effect.annotateSend sm s.name, Effect.goSend c sm],
        status := Status.running }
    | 1 =>
      match Intn rq s.w with
      | none => { state := s, out := [], status := Status.panicked }
      | some q =>
        let sm : Message :=
          { Imposition := Impositions.GetRequest, ResponseChan := listener, Sent := now,
            Ctx := ctx, Intention := whyKey q }
        { state := s, out := [Effect.annotateSend sm s.name, Effect.goSend c sm],
          status := Status.running }
    | _ =>
      let sm : Message :=
        { Imposition := Impositions.Put, ResponseChan := listener, Sent := now,
          Ctx := ctx, Intention := whyPayload s.w }
      { state := { s with w := wrapInt (s.w + 1) },
        out := [Effect.annotateSend sm s.name, Effect.goSend c sm],
        status := Status.running }
  else { state := s, out := [], status := Status.running }

/-- One iteration of `for { select { ... } }` on the given event. -/
def step (env : Env) (listener : Chan) (s : State) : Event → Step
  | Event.recv msg now => recv env listener s msg now
  | Event.eurekaTick now visitD visitE => eurekaTick listener s now visitD visitE
  | Event.chatTick seed ctx now r3 rq => chatTick env listener s seed ctx now r3 rq

/-- Whether the two ranges of a discovery tick visit every entry of their map exactly
    once: the visiting orders are permutations of the maps. -/
def visitsAll (s : State) (visitD : GoMap Time → GoMap Time)
    (visitE : String → GoMap Chan → GoMap Chan) : Bool :=
  decide ((visitD s.dependencies).Perm s.dependencies) &&
    s.dependencies.all (fun d => decide ((visitE d.1 s.eureka).Perm s.eureka))

/-- Whether the `select` can take the event: a message can always arrive, a ticker
    channel delivers only while its ticker is armed, and a range over a map visits every
    entry once. -/
def enabled (s : State) : Event → Bool
  | Event.recv _ _ => true
  | Event.eurekaTick _ visitD visitE =>
    tickerArmed s.tickers s.eurekaTicker && visitsAll s visitD visitE
  | Event.chatTick _ _ _ _ _ => tickerArmed s.tickers s.chatTicker

/-- The loop on a schedule of events: an event that is not enabled is passed over, and
    nothing is processed once an iteration has left the loop. -/
def run (env : Env) (listener : Chan) : State → List Event → Step
  | s, [] => { state := s, out := [], status := Status.running }
  | s, ev :: evs =>
    if enabled s ev then
      let r := step env listener s ev
      match r.status with
      | Status.running =>
        let r2 := run env listener r.state evs
        { state := r2.state, out := r.out ++ r2.out, status := r2.status }
      | _ => r
    else run env listener s evs

/-- The function `Start(listener)` on a schedule: set-up, then the loop. -/
def Start (env : Env) (listener : Chan) (evs : List Event) : Option Step :=
  (init env).map (fun s0 => run env listener s0 evs)

/-! ## A concrete environment

The general theorems hold for every `Env`. To run the model on concrete schedules an
environment is fixed here: the duration parser follows the algorithm of the Go standard
library, the collaborators follow the interfaces of section 6 of the specification. -/

/-- Whether the byte is one of `0` to `9`. -/
def isDigitByte (c : Char) : Bool := 48 ≤ c.toNat && c.toNat ≤ 57

/-- Model of `leadingInt` of package `time`: consumes the leading digits of `s`, starting
    from the accumulator `x`; `none` when the value exceeds `1 << 63`. -/
def leadingInt : List Char → Nat → Option (Nat × List Char)
  | [], x => some (x, [])
  | c :: cs, x =>
    if !isDigitByte c then some (x, c :: cs)
    else if x > 2 ^ 63 / 10 then none
    else
      let y := x * 10 + (c.toNat - 48)
      if y > 2 ^ 63 then none else leadingInt cs y

/-- Model of `leadingFraction` of package `time`: consumes the leading digits of `s` as a
    fraction `x / scale`; on overflow it stops accumulating precision. -/
def leadingFraction : List Char → Nat → Nat → Bool → Nat × Nat × List Char
  | [], x, scale, _ => (x, scale, [])
  | c :: cs, x, scale, overflow =>
    if !isDigitByte c then (x, scale, c :: cs)
    else if overflow then leadingFraction cs x scale true
    else if x > (2 ^ 63 - 1) / 10 then leadingFraction cs x scale true
    else
      let y := x * 10 + (c.toNat - 48)
      if y > 2 ^ 63 then leadingFraction cs x scale true
      else leadingFraction cs y (scale * 10) false

/-- The table `unitMap` of package `time`. -/
def unitMap (u : String) : Option Nat :=
  if u = "ns" then some 1
  else if u = "us" then some 1000
  else if u = "µs" then some 1000
  else if u = "μs" then some 1000
  else if u = "ms" then some 1000000
  else if u = "s" then some 1000000000
  else if u = "m" then some 60000000000
  else if u = "h" then some 3600000000000
  else none

/-- Whether the byte may start a number: a digit or the decimal point (byte 46). -/
def isNumberByte (c : Char) : Bool := c.toNat = 46 || isDigitByte c

/-- Floor of the base-2 logarithm of `n`, by repeated halving. -/
def log2Floor : Nat → Nat → Nat
  | 0, _ => 0
  | fuel + 1, n => if n < 2 then 0 else log2Floor fuel (n / 2) + 1

/-- The fraction `num / den` divided by `2 ^ e`, again as a fraction of naturals. -/
def scaleBy (num den : Nat) (e : Int) : Nat × Nat :=
  if 0 ≤ e then (num, den * 2 ^ e.toNat) else (num * 2 ^ (-e).toNat, den)

/-- Rounding of the positive fraction `num / den` to the nearest `float64`, ties to the
    even mantissa: the result `(m, e)` stands for `m * 2 ^ e` with a 53-bit mantissa `m`
    (the values met in `ParseDuration` are far from the subnormal and overflow ranges). -/
def roundFloat64 (num den : Nat) : Nat × Int :=
  if num = 0 then (0, 0)
  else
    let e0 : Int := (log2Floor num num : Int) - (log2Floor den den : Int) - 52
    let q0 := (scaleBy num den e0).1 / (scaleBy num den e0).2
    let e : Int := if q0 < 2 ^ 52 then e0 - 1 else e0
    let n := (scaleBy num den e).1
    let d := (scaleBy num den e).2
    let q := n / d
    let r := n % d
    if 2 * r > d ∨ (2 * r = d ∧ q % 2 = 1) then (q + 1, e) else (q, e)

/-- The expression `uint64(float64(f) * (float64(unit) / scale))` of `time.ParseDuration`:
    the conversion of `f`, the quotient and the product are each rounded to `float64`,
    and the conversion to `uint64` truncates (`scale` is a power of ten up to `10^19`,
    which `float64` holds exactly). -/
def fractionNanos (f unit scale : Nat) : Nat :=
  let a := roundFloat64 f 1
  let b := roundFloat64 unit scale
  let e := a.2 + b.2
  let p := roundFloat64 (scaleBy (a.1 * b.1) 1 (-e)).1 (scaleBy (a.1 * b.1) 1 (-e)).2
  if 0 ≤ p.2 then p.1 * 2 ^ p.2.toNat else p.1 / 2 ^ (-p.2).toNat

/-- The loop `for s != ""` of `time.ParseDuration`, one `number unit` group per round,
    accumulating nanoseconds in the unsigned 64-bit `d`. -/
def parseGroups : Nat → List Char → Nat → Option Nat
  | 0, s, d => if s = [] then some d else none
  | fuel + 1, s, d =>
    match s with
    | [] => some d
    | c :: _ =>
      if !isNumberByte c then none
      else
        match leadingInt s 0 with
        | none => none
        | some (v, s1) =>
          let pre := s.length != s1.length
          let frac : Nat × Nat × List Char × Bool :=
            match s1 with
            | [] => (0, 1, s1, false)
            | c1 :: t =>
              if c1.toNat = 46 then
                let r := leadingFraction t 0 1 false
                (r.1, r.2.1, r.2.2, t.length != r.2.2.length)
              else (0, 1, s1, false)
          let f := frac.1
          let scale := frac.2.1
          let s2 := frac.2.2.1
          let post := frac.2.2.2
          if !pre && !post then none
          else
            let u := s2.takeWhile (fun c => !isNumberByte c)
            let s3 := s2.dropWhile (fun c => !isNumberByte c)
            if u = [] then none
            else
              match unitMap (String.mk u) with
              | none => none
              | some unit =>
                if v > 2 ^ 63 / unit then none
                else
                  let v1 := v * unit
                  let v2 := if f > 0 then (v1 + fractionNanos f unit scale) % 2 ^ 64 else v1
                  if f > 0 ∧ v2 > 2 ^ 63 then none
                  else
                    let d1 := (d + v2) % 2 ^ 64
                    if d1 > 2 ^ 63 then none else parseGroups fuel s3 d1

/-- Model of `time.ParseDuration`: an optional sign, then the special case `"0"`, then
    one or more `number unit` groups; `none` stands for the error result. -/
def ParseDuration (str : String) : Option Duration :=
  let signed : Bool × List Char :=
    match str.data with
    | [] => (false, [])
    | c :: cs =>
      if c.toNat = 45 then (true, cs)
      else if c.toNat = 43 then (false, cs)
      else (false, c :: cs)
  let neg := signed.1
  let s := signed.2
  if s = [Char.ofNat 48] then some 0
  else if s = [] then none
  else
    match parseGroups s.length s 0 with
    | none => none
    | some d =>
      if neg then some (wrapInt (-(d : Int)))
      else if d > 2 ^ 63 - 1 then none
      else some (d : Int)

/-- Modelled from the spec: the router's `randomPick`, none (the nil channel) when the
    router is empty, otherwise the endpoint selected by the seed. -/
def randomPick (r : Router) (seed : Nat) : Chan :=
  match r.get? (seed % r.length) with
  | some e => e.2
  | none => Chan.nil

/-- Modelled from the spec: the environment of section 6. Inform stores the sender's
    mailbox; name-drop adds the named dependency and its endpoint; forget removes both;
    the flow tracer records transit and response times. -/
def specEnv : Env where
  EurekaPoll := "1s"
  Msglog := false
  ParseDuration := ParseDuration
  Random := randomPick
  Inform := fun _ msg _ _ => (msg.ResponseChan, [])
  NameDrop := fun now deps router msg _ _ eureka =>
    (GoMap.set deps msg.Intention now, GoMap.set router msg.Intention msg.ResponseChan, eureka, [])
  Forget := fun _ deps router msg =>
    (deps.filter (fun e => e.1 != msg.Intention),
      router.filter (fun e => e.1 != msg.Intention), [])
  Instrument := fun now msg _ h => { h with samples := ((now : Int) - msg.Sent) :: h.samples }
  End := fun now msg h1 h2 h3 =>
    ({ h1 with samples := ((now : Int) - msg.Sent) :: h1.samples }, h2, h3)

/-- The mailbox of the node in the concrete runs. -/
def inbox : Chan := Chan.mk 0

/-- The state in which `Start` enters the loop under `specEnv`. -/
def bootState : State :=
  { microservices := []
    dependencies := []
    parent := Chan.nil
    name := ""
    nethist := NewHist ""
    resphist := NewHist ""
    servhist := NewHist ""
    rthist := NewHist ""
    eureka := []
    chatrate := 0
    tickers := [{ period := Second, armed := true }, { period := Hour, armed := false }]
    eurekaTicker := 0
    chatTicker := 1
    w := 1 }

/-- A message of the given kind and payload from the given sender, sent at time zero. -/
def mkMsg (kind : Impositions) (sender : Chan) (payload : String) : Message :=
  { Imposition := kind, ResponseChan := sender, Sent := 0, Ctx := Context.NilContext,
    Intention := payload }

/-- The discovery query for dependency `dep`, stamped with the time `sent`. -/
def discoveryQuery (listener : Chan) (sent : Time) (dep : String) : Message :=
  { Imposition := Impositions.GetRequest, ResponseChan := listener, Sent := sent,
    Ctx := Context.NilContext, Intention := dep }

/-- The state after a Hello, two registry announcements and two name-drops. -/
def fanoutState : State :=
  (run specEnv inbox bootState
    [ Event.recv (mkMsg Impositions.Hello (Chan.mk 7) "dns") 1,
      Event.recv (mkMsg Impositions.Inform (Chan.mk 11) "zoneA") 2,
      Event.recv (mkMsg Impositions.Inform (Chan.mk 12) "zoneB") 3,
      Event.recv (mkMsg Impositions.NameDrop (Chan.mk 21) "svcA") 4,
      Event.recv (mkMsg Impositions.NameDrop (Chan.mk 22) "svcB") 5 ]).state

/-- Whether the event is the arrival of a Hello message. -/
def isHello : Event → Bool
  | Event.recv m _ => m.Imposition = Impositions.Hello
  | _ => false

/-- Identity assignment replayed on a schedule: starting from a parent and a name, each
    Hello that arrives while the name is empty records its reply mailbox and payload. -/
def assignIdentity : Chan × String → List Event → Chan × String
  | ident, [] => ident
  | ident, Event.recv m _ :: evs =>
    if m.Imposition = Impositions.Hello ∧ ident.2 = "" then
      assignIdentity (m.ResponseChan, m.Intention) evs
    else assignIdentity ident evs
  | ident, _ :: evs => assignIdentity ident evs

/-- The completion notice: a Goodbye carrying the node's name, no reply mailbox and the
    nil trace context. -/
def completionNotice (name : String) (now : Time) : Message :=
  { Imposition := Impositions.Goodbye, ResponseChan := Chan.nil, Sent := now,
    Ctx := Context.NilContext, Intention := name }

/-- Whether the event is a traffic tick that finds an endpoint and draws the write shape. -/
def isWrite (env : Env) (s : State) : Event → Bool
  | Event.chatTick seed _ _ r3 _ =>
    decide (env.Random s.microservices seed ≠ Chan.nil) && decide (r3 % 3 = 2)
  | _ => false

/-- The number of write-shaped traffic ticks the loop takes on a schedule. -/
def writeCount (env : Env) (listener : Chan) : State → List Event → Nat
  | _, [] => 0
  | s, ev :: evs =>
    if enabled s ev then
      (if isWrite env s ev then 1 else 0) +
        (match (step env listener s ev).status with
          | Status.running => writeCount env listener (step env listener s ev).state evs
          | _ => 0)
    else writeCount env listener s evs

/-- A state with one known endpoint and the traffic ticker armed: Hello, one name-drop,
    then a chat rate of 10ms. -/
def chattyState : State :=
  (run specEnv inbox bootState
    [ Event.recv (mkMsg Impositions.Hello (Chan.mk 7) "dns") 1,
      Event.recv (mkMsg Impositions.NameDrop (Chan.mk 21) "svcA") 2,
      Event.recv (mkMsg Impositions.Chat Chan.nil "10ms") 3 ]).state

/-- Whether the event is the arrival of a Hello message with a non-empty payload. -/
def isNamingHello : Event → Bool
  | Event.recv m _ => decide (m.Imposition = Impositions.Hello) && decide (m.Intention ≠ "")
  | _ => false

/-- Decimal digits of a natural number as numbers, most significant first. -/
def decDigits (u : Nat) : List Nat := if u = 0 then [0] else (Nat.digits 10 u).reverse

/-- The payloads of the Put messages that one traffic tick emits (none for other events). -/
def tickPuts (env : Env) (listener : Chan) (s : State) : Event → List String
  | Event.chatTick seed ctx now r3 rq =>
    ((sends (step env listener s (Event.chatTick seed ctx now r3 rq)).out).filter
      (fun cm => decide (cm.2.Imposition = Impositions.Put))).map (fun cm => cm.2.Intention)
  | _ => []

/-- The payloads of the Put messages emitted by the traffic ticks of a schedule, in order. -/
def writePayloads (env : Env) (listener : Chan) : State → List Event → List String
  | _, [] => []
  | s, ev :: evs =>
    if enabled s ev then
      tickPuts env listener s ev ++
        (match (step env listener s ev).status with
          | Status.running => writePayloads env listener (step env listener s ev).state evs
          | _ => [])
    else writePayloads env listener s evs

/-- The state after a Hello, a registry announcement that carries no reply mailbox, and
    one name-drop. -/
def nilRegistryState : State :=
  (run specEnv inbox bootState
    [ Event.recv (mkMsg Impositions.Hello (Chan.mk 7) "dns") 1,
      Event.recv (mkMsg Impositions.Inform Chan.nil "zoneA") 2,
      Event.recv (mkMsg Impositions.NameDrop (Chan.mk 21) "svcA") 3 ]).state

/-- Whether the event is the arrival of a Chat message that the Chat branch accepts: its
    payload parses as a duration between one millisecond and one hour. -/
def isAcceptedChat (env : Env) : Event → Bool
  | Event.recv m _ =>
    decide (m.Imposition = Impositions.Chat) &&
      (match env.ParseDuration m.Intention with
        | some d => decide (Millisecond ≤ d ∧ d ≤ Hour)
        | none => false)
  | _ => false

/-! ## General lemmas about the loop -/

theorem recv_name_of_ne (env : Env) (l : Chan) (s : State) (m : Message) (now : Time)
    (h : s.name ≠ "") :
    (recv env l s m now).state.name = s.name ∧ (recv env l s m now).state.parent = s.parent := by
  unfold recv
  cases hk : m.Imposition <;> simp [h]
  · split <;> [split; skip] <;> [split; skip; skip] <;> simp

theorem step_name_of_ne (env : Env) (l : Chan) (s : State) (ev : Event) (h : s.name ≠ "") :
    (step env l s ev).state.name = s.name ∧ (step env l s ev).state.parent = s.parent := by
  cases ev with
  | recv m now => exact recv_name_of_ne env l s m now h
  | eurekaTick now vD vE => simp [step, eurekaTick]
  | chatTick seed ctx now r3 rq =>
    simp only [step, chatTick]
    split
    · split
      · simp
      · split <;> simp
      · simp
    · simp

theorem run_cons_disabled (env : Env) (l : Chan) (s : State) (ev : Event) (evs : List Event)
    (h : enabled s ev = false) : run env l s (ev :: evs) = run env l s evs := by
  simp [run, h]

theorem run_cons_running (env : Env) (l : Chan) (s : State) (ev : Event) (evs : List Event)
    (h : enabled s ev = true) (hst : (step env l s ev).status = Status.running) :
    run env l s (ev :: evs)
      = { state := (run env l (step env l s ev).state evs).state
          out := (step env l s ev).out ++ (run env l (step env l s ev).state evs).out
          status := (run env l (step env l s ev).state evs).status } := by
  simp [run, h, hst]

theorem run_cons_stop (env : Env) (l : Chan) (s : State) (ev : Event) (evs : List Event)
    (h : enabled s ev = true) (hst : (step env l s ev).status ≠ Status.running) :
    run env l s (ev :: evs) = step env l s ev := by
  cases hs : (step env l s ev).status
  · exact absurd hs hst
  all_goals simp [run, h, hs]

/-- An invariant of single iterations is an invariant of the loop. -/
theorem run_induction (env : Env) (l : Chan) (P : State → Prop)
    (hstep : ∀ s ev, P s → P (step env l s ev).state) :
    ∀ (evs : List Event) (s : State), P s → P (run env l s evs).state := by
  intro evs
  induction evs with
  | nil => intro s hs; simpa [run] using hs
  | cons ev evs ih =>
    intro s hs
    unfold run
    by_cases hen : enabled s ev = true
    · simp only [hen, if_true]
      cases hst : (step env l s ev).status <;> simp only []
      · exact ih _ (hstep s ev hs)
      all_goals exact hstep s ev hs
    · simp only [hen]
      exact ih s hs

/-! ## C1: the name, once set, never changes -/

/-- C1: in every state whose name is non-empty, every event (any inbound message, a
    discovery tick, a traffic tick) leaves the name as it was; so does every schedule of
    events; in particular a further Hello, whatever name it carries, leaves it unchanged. -/
theorem name_never_changes (env : Env) (l : Chan) (s : State) (h : s.name ≠ "") :
    (∀ ev : Event, (step env l s ev).state.name = s.name) ∧
    (∀ evs : List Event, (run env l s evs).state.name = s.name) ∧
    (∀ (sender : Chan) (other : String) (sent now : Time) (ctx : Context),
      (step env l s (Event.recv
        { Imposition := Impositions.Hello, ResponseChan := sender, Sent := sent, Ctx := ctx,
          Intention := other } now)).state.name = s.name) := by
  refine ⟨fun ev => (step_name_of_ne env l s ev h).1, ?_, fun _ _ _ _ _ =>
    (step_name_of_ne env l s _ h).1⟩
  intro evs
  have key := run_induction env l (fun t => t.name = s.name)
    (fun t ev ht => by
      have ht' : t.name = s.name := ht
      have hne : t.name ≠ "" := by rw [ht']; exact h
      show (step env l t ev).state.name = s.name
      rw [(step_name_of_ne env l t ev hne).1]; exact ht') evs s rfl
  exact key

/-- Witness for C1: the node named `"dns"` by a first Hello keeps that name. -/
theorem name_never_changes_witness :
    (run specEnv inbox bootState [Event.recv (mkMsg Impositions.Hello (Chan.mk 7) "dns") 5]).state.name
        = "dns" ∧
    (step specEnv inbox
      (run specEnv inbox bootState [Event.recv (mkMsg Impositions.Hello (Chan.mk 7) "dns") 5]).state
      (Event.recv (mkMsg Impositions.Hello (Chan.mk 8) "other") 9)).state.name = "dns" := by
  refine ⟨by decide, ?_⟩
  have h := (name_never_changes specEnv inbox
    (run specEnv inbox bootState [Event.recv (mkMsg Impositions.Hello (Chan.mk 7) "dns") 5]).state
    (by decide)).1 (Event.recv (mkMsg Impositions.Hello (Chan.mk 8) "other") 9)
  rw [h]
  decide

/-! ## C2: validation of the chat rate -/

/-- C2: for every Chat message with payload `p` and every prior state, the chat rate
    after the message is `d` and a fresh traffic ticker armed at period `d` replaces the
    old one if and only if `p` parses as a duration `d` with 1ms <= d <= 1h, both bounds
    inclusive; in every other case the chat rate, the traffic ticker and its armed or
    disarmed state are exactly what they were before. The loop keeps running either way. -/
theorem chat_rate_validation (env : Env) (l : Chan) (s : State)
    (sender : Chan) (sent : Time) (ctx : Context) (p : String) (now : Time) :
    (∀ d : Duration,
      ((recv env l s ⟨Impositions.Chat, sender, sent, ctx, p⟩ now).state.chatrate = d ∧
        (recv env l s ⟨Impositions.Chat, sender, sent, ctx, p⟩ now).state.tickers
          = s.tickers ++ [{ period := d, armed := true }] ∧
        (recv env l s ⟨Impositions.Chat, sender, sent, ctx, p⟩ now).state.chatTicker
          = s.tickers.length) ↔
      (env.ParseDuration p = some d ∧ Millisecond ≤ d ∧ d ≤ Hour)) ∧
    (∀ d : Duration, env.ParseDuration p = some d → Millisecond ≤ d → d ≤ Hour →
      tickerArmed (recv env l s ⟨Impositions.Chat, sender, sent, ctx, p⟩ now).state.tickers
        (recv env l s ⟨Impositions.Chat, sender, sent, ctx, p⟩ now).state.chatTicker = true) ∧
    ((¬ ∃ d : Duration, env.ParseDuration p = some d ∧ Millisecond ≤ d ∧ d ≤ Hour) →
      (recv env l s ⟨Impositions.Chat, sender, sent, ctx, p⟩ now).state.chatrate = s.chatrate ∧
      (recv env l s ⟨Impositions.Chat, sender, sent, ctx, p⟩ now).state.tickers = s.tickers ∧
      (recv env l s ⟨Impositions.Chat, sender, sent, ctx, p⟩ now).state.chatTicker
        = s.chatTicker ∧
      tickerArmed (recv env l s ⟨Impositions.Chat, sender, sent, ctx, p⟩ now).state.tickers
        (recv env l s ⟨Impositions.Chat, sender, sent, ctx, p⟩ now).state.chatTicker
        = tickerArmed s.tickers s.chatTicker) ∧
    (recv env l s ⟨Impositions.Chat, sender, sent, ctx, p⟩ now).status = Status.running := by
  have hms : (0 : Int) < Millisecond := by decide
  cases hp : env.ParseDuration p with
  | none =>
    refine ⟨fun d => ⟨fun h => ?_, fun h => ?_⟩, fun d h => ?_, fun _ => ?_, ?_⟩
    · have h2 := congrArg List.length h.2.1
      simp [recv, hp] at h2
    · simp at h
    · simp at h
    · simp [recv, hp]
    · simp [recv, hp]
  | some d0 =>
    by_cases hr : Millisecond ≤ d0 ∧ d0 ≤ Hour
    · have hpos : ¬ d0 ≤ 0 := not_le.mpr (lt_of_lt_of_le hms hr.1)
      refine ⟨fun d => ⟨fun h => ?_, fun h => ?_⟩, fun d h _ _ => ?_, fun hn => ?_, ?_⟩
      · have h1 := h.1
        simp [recv, hp, hr, NewTicker, hpos] at h1
        subst h1
        exact ⟨rfl, hr⟩
      · have hd : d0 = d := by simpa using h.1
        subst hd
        simp [recv, hp, hr, NewTicker, hpos]
      · simp [recv, hp, hr, NewTicker, hpos, tickerArmed]
      · exact absurd ⟨d0, rfl, hr⟩ hn
      · simp [recv, hp, hr, NewTicker, hpos]
    · refine ⟨fun d => ⟨fun h => ?_, fun h => ?_⟩, fun d h h1 h2 => ?_, fun _ => ?_, ?_⟩
      · have h2 := congrArg List.length h.2.1
        simp [recv, hp, hr] at h2
      · have hd : d0 = d := by simpa using h.1
        subst hd
        exact absurd h.2 hr
      · have hd : d0 = d := by simpa using h
        subst hd
        exact absurd ⟨h1, h2⟩ hr
      · simp [recv, hp, hr]
      · simp [recv, hp, hr]

/-- Witness for C2: under the parser of the standard library, `"10ms"` is accepted with
    rate 10ms and arms a fresh ticker, while `"2h"` and `"abc"` leave the chat rate and
    the (disarmed) traffic ticker of the initial state as they were. -/
theorem chat_rate_validation_witness :
    ParseDuration "10ms" = some (10 * Millisecond) ∧
    (recv specEnv inbox bootState (mkMsg Impositions.Chat Chan.nil "10ms") 3).state.chatrate
      = 10 * Millisecond ∧
    tickerArmed
      (recv specEnv inbox bootState (mkMsg Impositions.Chat Chan.nil "10ms") 3).state.tickers
      (recv specEnv inbox bootState (mkMsg Impositions.Chat Chan.nil "10ms") 3).state.chatTicker
      = true ∧
    ParseDuration "2h" = some (2 * Hour) ∧
    (recv specEnv inbox bootState (mkMsg Impositions.Chat Chan.nil "2h") 3).state.chatrate = 0 ∧
    tickerArmed
      (recv specEnv inbox bootState (mkMsg Impositions.Chat Chan.nil "2h") 3).state.tickers
      (recv specEnv inbox bootState (mkMsg Impositions.Chat Chan.nil "2h") 3).state.chatTicker
      = false ∧
    ParseDuration "abc" = none ∧
    (recv specEnv inbox bootState (mkMsg Impositions.Chat Chan.nil "abc") 3).state.chatrate = 0 ∧
    tickerArmed
      (recv specEnv inbox bootState (mkMsg Impositions.Chat Chan.nil "abc") 3).state.tickers
      (recv specEnv inbox bootState (mkMsg Impositions.Chat Chan.nil "abc") 3).state.chatTicker
      = false := by
  have h10 : specEnv.ParseDuration "10ms" = some (10 * Millisecond) := by decide
  have h2h : ¬ ∃ d : Duration, specEnv.ParseDuration "2h" = some d ∧ Millisecond ≤ d ∧ d ≤ Hour := by
    have e : specEnv.ParseDuration "2h" = some (2 * Hour) := by decide
    rintro ⟨d, hd, _, hle⟩
    rw [e] at hd
    have hd2 : 2 * Hour = d := by simpa using hd
    rw [← hd2] at hle
    exact absurd hle (by decide)
  have habc : ¬ ∃ d : Duration, specEnv.ParseDuration "abc" = some d ∧ Millisecond ≤ d ∧ d ≤ Hour := by
    have e : specEnv.ParseDuration "abc" = none := by decide
    rintro ⟨d, hd, _, _⟩
    rw [e] at hd
    exact absurd hd (by simp)
  have a := chat_rate_validation specEnv inbox bootState Chan.nil 0 Context.NilContext "10ms" 3
  have b := chat_rate_validation specEnv inbox bootState Chan.nil 0 Context.NilContext "2h" 3
  have c := chat_rate_validation specEnv inbox bootState Chan.nil 0 Context.NilContext "abc" 3
  refine ⟨by decide, ?_, ?_, by decide, ?_, ?_, by decide, ?_, ?_⟩
  · exact ((a.1 _).2 ⟨h10, by decide, by decide⟩).1
  · exact a.2.1 _ h10 (by decide) (by decide)
  · exact (b.2.2.1 h2h).1
  · exact ((b.2.2.1 h2h).2.2.2).trans (by decide)
  · exact (c.2.2.1 habc).1
  · exact ((c.2.2.1 habc).2.2.2).trans (by decide)

/-! ## C3: the discovery fan-out -/

theorem sends_map_send {α : Type} (f : α → Chan × Message) (xs : List α) :
    sends (xs.map (fun x => Effect.send (f x).1 (f x).2)) = xs.map f := by
  induction xs with
  | nil => rfl
  | cons x xs ih => simp [sends, ih]

theorem sends_append (xs ys : List Effect) : sends (xs ++ ys) = sends xs ++ sends ys := by
  induction xs with
  | nil => rfl
  | cons x xs ih => cases x <;> simp [sends, ih]

theorem queryRegistries_eq (l : Chan) (now : String → String → Time) (dep : String) :
    ∀ (E : GoMap Chan), (∀ e ∈ E, e.2 ≠ Chan.nil) →
      queryRegistries l now dep E
        = (E.map (fun e => Effect.send e.2 (discoveryQuery l (now dep e.1) dep)), true) := by
  intro E
  induction E with
  | nil => intro _; rfl
  | cons e E ih =>
    intro h
    obtain ⟨zone, ch⟩ := e
    have hch : ch ≠ Chan.nil := h (zone, ch) (List.mem_cons_self _ _)
    have ih2 := ih (fun e he => h e (List.mem_cons_of_mem _ he))
    simp [queryRegistries, hch, ih2, discoveryQuery]

theorem queryDependencies_eq (l : Chan) (now : String → String → Time)
    (visitE : String → GoMap Chan → GoMap Chan) (E : GoMap Chan) :
    ∀ (D : GoMap Time), (∀ d ∈ D, ∀ e ∈ visitE d.1 E, e.2 ≠ Chan.nil) →
      queryDependencies l now visitE E D
        = (D.flatMap (fun d => (visitE d.1 E).map
            (fun e => Effect.send e.2 (discoveryQuery l (now d.1 e.1) d.1))), true) := by
  intro D
  induction D with
  | nil => intro _; rfl
  | cons d D ih =>
    intro h
    obtain ⟨dep, t⟩ := d
    have h1 := queryRegistries_eq l now dep (visitE dep E)
      (h (dep, t) (List.mem_cons_self _ _))
    have h2 := ih (fun d hd => h d (List.mem_cons_of_mem _ hd))
    simp [queryDependencies, h1, h2, List.flatMap_cons]

theorem sends_flatMap_send {α β : Type} (g : α → List β) (f : α → β → Chan × Message) :
    ∀ (xs : List α),
      sends (xs.flatMap (fun x => (g x).map (fun y => Effect.send (f x y).1 (f x y).2)))
        = xs.flatMap (fun x => (g x).map (f x)) := by
  intro xs
  induction xs with
  | nil => rfl
  | cons x xs ih =>
    rw [List.flatMap_cons, List.flatMap_cons, sends_append, ih, sends_map_send (f x) (g x)]

theorem length_flatMap_map {α β γ δ : Type} (g : α → List β) (f1 : α → β → γ)
    (f2 : α → β → δ) :
    ∀ (xs : List α), (xs.flatMap (fun x => (g x).map (f1 x))).length
      = (xs.flatMap (fun x => (g x).map (f2 x))).length := by
  intro xs
  induction xs with
  | nil => rfl
  | cons x xs ih => simp only [List.flatMap_cons, List.length_append, List.length_map, ih]

theorem product_map_eq_flatMap {α β γ : Type} (f : α → β → γ) (D : List α) (E : List β) :
    (List.product D E).map (fun de => f de.1 de.2) = D.flatMap (fun d => E.map (f d)) := by
  induction D with
  | nil => rfl
  | cons d D ih =>
    have hp : List.product (d :: D) E = E.map (Prod.mk d) ++ List.product D E :=
      List.product_cons d D E
    rw [hp, List.map_append, ih, List.flatMap_cons, List.map_map]
    rfl

/-- C3, as the code has it: in every state the discovery tick leaves every local
    variable (name, parent, `D`, `E`, chat rate, `w`) unchanged. In every state whose
    registry cache `E` holds no nil channel, a discovery tick (each of its ranges
    visiting every entry of its map once, in whatever order) emits exactly `|D| * |E|`
    messages and nothing else, exactly one for each pair of a dependency entry of `D` and
    a registry entry of `E`: the messages sent are, up to their order, the GetRequests
    with payload the dependency name, reply mailbox the node's own inbox and the nil
    trace context, one to each registry mailbox; and the loop keeps running. -/
theorem discovery_fan_out (env : Env) (l : Chan) (s : State) (now : String → String → Time)
    (visitD : GoMap Time → GoMap Time) (visitE : String → GoMap Chan → GoMap Chan) :
    (step env l s (Event.eurekaTick now visitD visitE)).state = s ∧
    ((visitD s.dependencies).Perm s.dependencies →
      (∀ d ∈ s.dependencies, (visitE d.1 s.eureka).Perm s.eureka) →
      (∀ e ∈ s.eureka, e.2 ≠ Chan.nil) →
        (sends (step env l s (Event.eurekaTick now visitD visitE)).out).Perm
          ((List.product s.dependencies s.eureka).map
            (fun de => (de.2.2,
              ({ Imposition := Impositions.GetRequest, ResponseChan := l,
                 Sent := now de.1.1 de.2.1, Ctx := Context.NilContext,
                 Intention := de.1.1 } : Message)))) ∧
        (sends (step env l s (Event.eurekaTick now visitD visitE)).out).length
          = s.dependencies.length * s.eureka.length ∧
        (step env l s (Event.eurekaTick now visitD visitE)).out.length
          = s.dependencies.length * s.eureka.length ∧
        (step env l s (Event.eurekaTick now visitD visitE)).status = Status.running) := by
  refine ⟨by simp [step, eurekaTick], fun hD hV hE => ?_⟩
  have hVD : ∀ d ∈ visitD s.dependencies, (visitE d.1 s.eureka).Perm s.eureka :=
    fun d hd => hV d (hD.subset hd)
  have hnil : ∀ d ∈ visitD s.dependencies, ∀ e ∈ visitE d.1 s.eureka, e.2 ≠ Chan.nil :=
    fun d hd e he => hE e ((hVD d hd).subset he)
  have hq := queryDependencies_eq l now visitE s.eureka (visitD s.dependencies) hnil
  have hout : (step env l s (Event.eurekaTick now visitD visitE)).out
      = (visitD s.dependencies).flatMap (fun d => (visitE d.1 s.eureka).map
          (fun e => Effect.send e.2 (discoveryQuery l (now d.1 e.1) d.1))) := by
    simp only [step, eurekaTick, hq]
  have hs : sends (step env l s (Event.eurekaTick now visitD visitE)).out
      = (visitD s.dependencies).flatMap (fun d => (visitE d.1 s.eureka).map
          (fun e => (e.2, discoveryQuery l (now d.1 e.1) d.1))) := by
    rw [hout]
    exact sends_flatMap_send (fun d : String × Time => visitE d.1 s.eureka)
      (fun d e => (e.2, discoveryQuery l (now d.1 e.1) d.1)) (visitD s.dependencies)
  have hperm : (sends (step env l s (Event.eurekaTick now visitD visitE)).out).Perm
      ((List.product s.dependencies s.eureka).map
        (fun de => (de.2.2, discoveryQuery l (now de.1.1 de.2.1) de.1.1))) := by
    rw [hs, product_map_eq_flatMap
      (fun (d : String × Time) (e : String × Chan) => (e.2, discoveryQuery l (now d.1 e.1) d.1))]
    refine (List.Perm.flatMap_right _ hD).trans (List.Perm.flatMap_left _ ?_)
    intro d hd
    exact (hV d hd).map _
  have hlen : (sends (step env l s (Event.eurekaTick now visitD visitE)).out).length
      = s.dependencies.length * s.eureka.length := by
    rw [hperm.length_eq, List.length_map]
    exact List.length_product _ _
  refine ⟨hperm, hlen, ?_, ?_⟩
  · have h2 : (sends (step env l s (Event.eurekaTick now visitD visitE)).out).length
        = (step env l s (Event.eurekaTick now visitD visitE)).out.length := by
      rw [hs, hout]
      exact length_flatMap_map (fun d : String × Time => visitE d.1 s.eureka) _ _ _
    rw [← h2]
    exact hlen
  · simp [step, eurekaTick, hq]

/-- Witness for C3 as amended: with dependencies `svcA`, `svcB` and two known registries,
    one discovery tick emits exactly 4 queries, also when the ranges visit the maps in
    reverse order. -/
theorem discovery_fan_out_witness :
    fanoutState.dependencies.map Prod.fst = ["svcA", "svcB"] ∧
    fanoutState.eureka.length = 2 ∧
    (sends (step specEnv inbox fanoutState
      (Event.eurekaTick (fun _ _ => 9) List.reverse (fun _ => List.reverse))).out).length = 4 := by
  refine ⟨by decide, by decide, ?_⟩
  have h := ((discovery_fan_out specEnv inbox fanoutState (fun _ _ => 9) List.reverse
    (fun _ => List.reverse)).2 (List.reverse_perm _) (fun _ _ => List.reverse_perm _)
    (by decide)).2.1
  rw [h]
  decide

/-- Counterexample to C3 as stated: after a Hello, an Inform without reply mailbox and a
    name-drop the loop is running with one dependency and one registry entry, whose
    channel is nil; the discovery tick then sends none of the `1 * 1` messages and the
    loop blocks on the nil channel. -/
theorem discovery_tick_blocks_on_nil_registry :
    (run specEnv inbox bootState
      [ Event.recv (mkMsg Impositions.Hello (Chan.mk 7) "dns") 1,
        Event.recv (mkMsg Impositions.Inform Chan.nil "zoneA") 2,
        Event.recv (mkMsg Impositions.NameDrop (Chan.mk 21) "svcA") 3 ]).status
      = Status.running ∧
    nilRegistryState.dependencies.length = 1 ∧
    nilRegistryState.eureka.length = 1 ∧
    enabled nilRegistryState (Event.eurekaTick (fun _ _ => 9) id (fun _ => id)) = true ∧
    sends (step specEnv inbox nilRegistryState
      (Event.eurekaTick (fun _ _ => 9) id (fun _ => id))).out = [] ∧
    (step specEnv inbox nilRegistryState
      (Event.eurekaTick (fun _ _ => 9) id (fun _ => id))).status = Status.blocked := by
  decide

/-! ## C4: shutdown -/

theorem init_spec (env : Env) (s0 : State) (h : init env = some s0) :
    s0.parent = Chan.nil ∧ s0.name = "" ∧ s0.w = 1 ∧ s0.chatrate = 0 ∧
    s0.dependencies = [] ∧ s0.eureka = [] ∧
    tickerArmed s0.tickers s0.eurekaTicker = true ∧
    tickerArmed s0.tickers s0.chatTicker = false := by
  unfold init at h
  simp only [NewTicker] at h
  by_cases hep : (env.ParseDuration env.EurekaPoll).getD 0 ≤ 0
  · simp [hep] at h
  · have hh : ¬ Hour ≤ 0 := by decide
    simp only [hep, hh, if_false, Option.some.injEq] at h
    subst h
    simp [tickerArmed, stopTicker, List.modify]

theorem recv_identity (env : Env) (l : Chan) (s : State) (m : Message) (now : Time) :
    ((recv env l s m now).state.parent, (recv env l s m now).state.name)
      = if m.Imposition = Impositions.Hello ∧ s.name = "" then (m.ResponseChan, m.Intention)
        else (s.parent, s.name) := by
  unfold recv
  cases hk : m.Imposition <;> simp
  · by_cases hn : s.name = "" <;> simp [hn]
  · split <;> [split; skip] <;> [split; skip; skip] <;> simp

theorem tick_identity (env : Env) (l : Chan) (s : State) (ev : Event) (h : isHello ev = false) :
    (∀ m now, ev ≠ Event.recv m now) →
    ((step env l s ev).state.parent, (step env l s ev).state.name) = (s.parent, s.name) := by
  intro hne
  cases ev with
  | recv m now => exact absurd rfl (hne m now)
  | eurekaTick now vD vE => simp [step, eurekaTick]
  | chatTick seed ctx now r3 rq =>
    simp only [step, chatTick]
    split
    · split
      · simp
      · split <;> simp
      · simp
    · simp

theorem run_identity (env : Env) (l : Chan) :
    ∀ (evs : List Event) (s : State), (run env l s evs).status = Status.running →
      ((run env l s evs).state.parent, (run env l s evs).state.name)
        = assignIdentity (s.parent, s.name) evs := by
  intro evs
  induction evs with
  | nil => intro s _; simp [run, assignIdentity]
  | cons ev evs ih =>
    intro s hrun
    by_cases hen : enabled s ev = true
    · by_cases hst : (step env l s ev).status = Status.running
      · rw [run_cons_running env l s ev evs hen hst] at hrun ⊢
        have h2 := ih _ hrun
        simp only [] at h2 ⊢
        rw [h2]
        cases ev with
        | recv m now =>
          have hr := recv_identity env l s m now
          simp only [step] at hr ⊢
          rw [hr]
          simp only [assignIdentity]
          by_cases hc : m.Imposition = Impositions.Hello ∧ s.name = ""
          · simp only [hc, and_self, if_true]
          · simp only [hc, if_false]
        | eurekaTick now vD vE =>
          have ht := tick_identity env l s (Event.eurekaTick now vD vE) rfl
            (by intro m n hh; cases hh)
          simp only [assignIdentity]
          rw [ht]
        | chatTick seed ctx now r3 rq =>
          have ht := tick_identity env l s (Event.chatTick seed ctx now r3 rq) rfl
            (by intro m n hh; cases hh)
          simp only [assignIdentity]
          rw [ht]
      · rw [run_cons_stop env l s ev evs hen hst] at hrun
        exact absurd hrun hst
    · have hd : enabled s ev = false := by simpa using hen
      rw [run_cons_disabled env l s ev evs hd] at hrun ⊢
      rw [ih s hrun]
      cases ev with
      | recv m now => simp [enabled] at hd
      | eurekaTick now vD vE => simp [assignIdentity]
      | chatTick seed ctx now r3 rq => simp [assignIdentity]

theorem assignIdentity_no_hello :
    ∀ (evs : List Event) (ident : Chan × String), (∀ ev ∈ evs, isHello ev = false) →
      assignIdentity ident evs = ident := by
  intro evs
  induction evs with
  | nil => intro ident _; rfl
  | cons ev evs ih =>
    intro ident h
    have h1 := h ev (List.mem_cons_self _ _)
    have h2 := ih ident (fun e he => h e (List.mem_cons_of_mem _ he))
    cases ev with
    | recv m now =>
      have hm : m.Imposition ≠ Impositions.Hello := by simpa [isHello] using h1
      simp [assignIdentity, hm, h2]
    | eurekaTick now vD vE => simp [assignIdentity, h2]
    | chatTick seed ctx now r3 rq => simp [assignIdentity, h2]

/-- C4, as the code has it: in every state a Goodbye message results in exactly one
    outbound message, a Goodbye whose payload is the node's name, addressed to the
    current value of `parent`; the loop then returns, so that whatever the rest of the
    schedule no further event is processed and nothing further is emitted. In a state
    reached from the start of `Start`, `parent` and `name` are what identity assignment
    recorded (the reply mailbox and payload of the latest Hello that arrived while the
    name was empty), and `parent` is the nil channel when no Hello has arrived. -/
theorem goodbye_notice (env : Env) (l : Chan) (s : State)
    (sender : Chan) (sent : Time) (ctx : Context) (p : String) (now : Time) :
    sends (step env l s (Event.recv ⟨Impositions.Goodbye, sender, sent, ctx, p⟩ now)).out
      = [(s.parent, completionNotice s.name now)] ∧
    (step env l s (Event.recv ⟨Impositions.Goodbye, sender, sent, ctx, p⟩ now)).status
      = Status.returned ∧
    (∀ evs : List Event,
      run env l s (Event.recv ⟨Impositions.Goodbye, sender, sent, ctx, p⟩ now :: evs)
        = step env l s (Event.recv ⟨Impositions.Goodbye, sender, sent, ctx, p⟩ now)) ∧
    (∀ (s0 : State) (evs : List Event), init env = some s0 →
      (run env l s0 evs).status = Status.running → s = (run env l s0 evs).state →
        (s.parent, s.name) = assignIdentity (Chan.nil, "") evs ∧
        ((∀ ev ∈ evs, isHello ev = false) → s.parent = Chan.nil)) := by
  have hst : (step env l s (Event.recv ⟨Impositions.Goodbye, sender, sent, ctx, p⟩ now)).status
      = Status.returned := by simp [step, recv]
  refine ⟨?_, hst, fun evs => ?_, fun s0 evs h0 hrun hs => ?_⟩
  · by_cases hlog : env.Msglog = true <;> simp [step, recv, sends, completionNotice, hlog]
  · exact run_cons_stop env l s _ evs rfl (by rw [hst]; decide)
  · have hi := init_spec env s0 h0
    have hid := run_identity env l evs s0 hrun
    rw [hi.1, hi.2.1] at hid
    subst hs
    refine ⟨hid, fun hno => ?_⟩
    rw [assignIdentity_no_hello evs _ hno] at hid
    exact congrArg Prod.fst hid

/-- Witness for C4: the node named `"dns"` by mailbox 7 reports its Goodbye to mailbox 7. -/
theorem goodbye_notice_witness :
    sends (step specEnv inbox
      (run specEnv inbox bootState [Event.recv (mkMsg Impositions.Hello (Chan.mk 7) "dns") 1]).state
      (Event.recv (mkMsg Impositions.Goodbye Chan.nil "") 8)).out
      = [(Chan.mk 7, completionNotice "dns" 8)] := by
  have h := (goodbye_notice specEnv inbox
    (run specEnv inbox bootState [Event.recv (mkMsg Impositions.Hello (Chan.mk 7) "dns") 1]).state
    Chan.nil 0 Context.NilContext "" 8).1
  exact h.trans (by decide)

/-- Counterexample to C4 as stated: in the initial (unnamed) state no identity assignment
    has recorded a parent mailbox, and the single message a Goodbye produces is addressed
    to the nil channel, not to any mailbox. -/
theorem goodbye_before_hello_has_no_recipient :
    init specEnv = some bootState ∧
    sends (step specEnv inbox bootState (Event.recv (mkMsg Impositions.Goodbye Chan.nil "") 8)).out
      = [(Chan.nil, completionNotice "" 8)] ∧
    ¬ ∃ id : Nat, (Chan.mk id) ∈
      (sends (step specEnv inbox bootState
        (Event.recv (mkMsg Impositions.Goodbye Chan.nil "") 8)).out).map Prod.fst := by
  refine ⟨by decide, by decide, ?_⟩
  have h : sends (step specEnv inbox bootState
      (Event.recv (mkMsg Impositions.Goodbye Chan.nil "") 8)).out
      = [(Chan.nil, completionNotice "" 8)] := by decide
  rw [h]
  simp

/-! ## C5: the traffic tick -/

theorem mod_three_cases (r : Nat) : r % 3 = 0 ∨ r % 3 = 1 ∨ r % 3 = 2 := by omega

/-- C5: in every state with a positive counter `w` (every reachable state, see C6), a
    traffic tick emits no outbound message, no other effect, and leaves all local
    variables (so `w`) unchanged when the router's random pick returns none; otherwise it
    emits exactly one outbound message, addressed to the picked endpoint, whose reply
    mailbox is the node's own inbox and whose kind is GetRequest for the first two
    shapes (draws 0 and 1) and Put for the third (draw 2). -/
theorem traffic_tick (env : Env) (l : Chan) (s : State)
    (seed : Nat) (ctx : Context) (now : Time) (r3 rq : Nat) (hw : 0 < s.w) :
    (env.Random s.microservices seed = Chan.nil →
      (step env l s (Event.chatTick seed ctx now r3 rq)).out = [] ∧
      sends (step env l s (Event.chatTick seed ctx now r3 rq)).out = [] ∧
      (step env l s (Event.chatTick seed ctx now r3 rq)).state = s) ∧
    (env.Random s.microservices seed ≠ Chan.nil →
      ∃ m : Message,
        sends (step env l s (Event.chatTick seed ctx now r3 rq)).out
          = [(env.Random s.microservices seed, m)] ∧
        m.ResponseChan = l ∧
        (r3 % 3 = 0 → m.Imposition = Impositions.GetRequest ∧ m.Intention = "why?") ∧
        (r3 % 3 = 1 → m.Imposition = Impositions.GetRequest ∧
          m.Intention = whyKey ((rq : Int) % s.w)) ∧
        (r3 % 3 = 2 → m.Imposition = Impositions.Put ∧ m.Intention = whyPayload s.w)) ∧
    (step env l s (Event.chatTick seed ctx now r3 rq)).status = Status.running := by
  have hq : Intn rq s.w = some ((rq : Int) % s.w) := by simp [Intn, not_le.mpr hw]
  refine ⟨fun hc => ?_, fun hc => ?_, ?_⟩
  · simp [step, chatTick, hc, sends]
  · rcases mod_three_cases r3 with h | h | h
    · exact ⟨⟨Impositions.GetRequest, l, now, ctx, "why?"⟩,
        by simp [step, chatTick, hc, h, sends], rfl, by simp [h], by simp [h], by simp [h]⟩
    · exact ⟨⟨Impositions.GetRequest, l, now, ctx, whyKey ((rq : Int) % s.w)⟩,
        by simp [step, chatTick, hc, h, hq, sends], rfl, by simp [h], by simp [h], by simp [h]⟩
    · exact ⟨⟨Impositions.Put, l, now, ctx, whyPayload s.w⟩,
        by simp [step, chatTick, hc, h, sends], rfl, by simp [h], by simp [h], by simp [h]⟩
  · by_cases hc : env.Random s.microservices seed = Chan.nil
    · simp [step, chatTick, hc]
    · rcases mod_three_cases r3 with h | h | h <;> simp [step, chatTick, hc, h, hq]

/-- Witness for C5: with one known endpoint (mailbox 21) a write-shaped tick sends one Put
    to it, and with an empty router a tick sends nothing. -/
theorem traffic_tick_witness :
    sends (step specEnv inbox chattyState (Event.chatTick 0 (Context.trace 1) 9 2 0)).out
      = [(Chan.mk 21, ⟨Impositions.Put, inbox, 9, Context.trace 1, "Why11 me"⟩)] ∧
    sends (step specEnv inbox bootState (Event.chatTick 0 (Context.trace 1) 9 2 0)).out = [] ∧
    (∃ m : Message,
      sends (step specEnv inbox chattyState (Event.chatTick 0 (Context.trace 1) 9 2 0)).out
        = [(specEnv.Random chattyState.microservices 0, m)] ∧
      m.ResponseChan = inbox ∧ m.Imposition = Impositions.Put) := by
  have h := traffic_tick specEnv inbox bootState 0 (Context.trace 1) 9 2 0 (by decide)
  have h2 := traffic_tick specEnv inbox chattyState 0 (Context.trace 1) 9 2 0 (by decide)
  obtain ⟨m, hm1, hm2, _, _, hm5⟩ := h2.2.1 (by decide)
  exact ⟨by decide, (h.1 (by decide)).2.1, m, hm1, hm2, (hm5 (by decide)).1⟩

/-! ## C6: the traffic counter -/

theorem wrapInt_of_range (x : Int) (h1 : -2 ^ 63 ≤ x) (h2 : x < 2 ^ 63) : wrapInt x = x := by
  unfold wrapInt
  omega

theorem recv_w (env : Env) (l : Chan) (s : State) (m : Message) (now : Time) :
    (recv env l s m now).state.w = s.w := by
  unfold recv
  cases hk : m.Imposition <;> simp
  · split <;> simp
  · split <;> [split; skip] <;> [split; skip; skip] <;> simp

theorem step_w (env : Env) (l : Chan) (s : State) (ev : Event) :
    (step env l s ev).state.w = if isWrite env s ev = true then wrapInt (s.w + 1) else s.w := by
  cases ev with
  | recv m now => simpa [step, isWrite] using recv_w env l s m now
  | eurekaTick now vD vE => simp [step, eurekaTick, isWrite]
  | chatTick seed ctx now r3 rq =>
    by_cases hc : env.Random s.microservices seed = Chan.nil
    · simp [step, chatTick, isWrite, hc]
    · rcases mod_three_cases r3 with h | h | h
      · simp [step, chatTick, isWrite, hc, h]
      · cases hq : Intn rq s.w <;> simp [step, chatTick, isWrite, hc, h, hq]
      · simp [step, chatTick, isWrite, hc, h]

theorem step_write_running (env : Env) (l : Chan) (s : State) (ev : Event)
    (h : isWrite env s ev = true) : (step env l s ev).status = Status.running := by
  cases ev with
  | recv m now => simp [isWrite] at h
  | eurekaTick now vD vE => simp [isWrite] at h
  | chatTick seed ctx now r3 rq =>
    simp only [isWrite, Bool.and_eq_true, decide_eq_true_eq] at h
    simp [step, chatTick, h.1, h.2]

theorem run_w (env : Env) (l : Chan) :
    ∀ (evs : List Event) (s : State), 1 ≤ s.w → s.w + writeCount env l s evs ≤ maxInt →
      (run env l s evs).state.w = s.w + writeCount env l s evs := by
  intro evs
  induction evs with
  | nil => intro s _ _; simp [run, writeCount]
  | cons ev evs ih =>
    intro s h1 h2
    have hmax : maxInt = 2 ^ 63 - 1 := rfl
    by_cases hen : enabled s ev = true
    · have hsw := step_w env l s ev
      by_cases hst : (step env l s ev).status = Status.running
      · rw [run_cons_running env l s ev evs hen hst]
        simp only [writeCount, hen, if_true, hst] at h2 ⊢
        by_cases hwr : isWrite env s ev = true
        · simp only [hwr, if_true] at hsw h2 ⊢
          have hw1 : wrapInt (s.w + 1) = s.w + 1 := wrapInt_of_range _ (by omega) (by omega)
          rw [hw1] at hsw
          have := ih (step env l s ev).state (by rw [hsw]; omega) (by rw [hsw]; omega)
          rw [this, hsw]
          push_cast
          omega
        · simp only [hwr] at hsw h2 ⊢
          have := ih (step env l s ev).state (by rw [hsw]; simpa using h1)
            (by rw [hsw]; simpa using h2)
          rw [this, hsw]
          simp
      · rw [run_cons_stop env l s ev evs hen hst]
        have hwr : isWrite env s ev = false := by
          by_contra hc
          exact hst (step_write_running env l s ev (by simpa using hc))
        simp only [hwr] at hsw
        cases hs : (step env l s ev).status
        · exact absurd hs hst
        all_goals simp [writeCount, hen, hwr, hs, hsw]
    · have hd : enabled s ev = false := by simpa using hen
      rw [run_cons_disabled env l s ev evs hd]
      simp only [writeCount, hd] at h2 ⊢
      exact ih s h1 (by simpa using h2)

/-- C6: `w` is 1 when the loop is entered; an event adds one to `w` exactly when it is a
    traffic tick that finds an endpoint and draws the write shape (as long as `w` is
    below the largest `int`), and every other event (any inbound message, a discovery
    tick, a traffic tick without endpoint, a read-shaped tick) leaves `w` unchanged.
    Hence after every schedule `w = 1 + (number of write-shaped ticks taken) >= 1`, and
    the bound handed to `rand.Intn` is positive: the draw succeeds with `0 <= q < w`. -/
theorem traffic_counter (env : Env) (l : Chan) :
    (∀ s0 : State, init env = some s0 → s0.w = 1) ∧
    (∀ (s : State) (ev : Event), -2 ^ 63 ≤ s.w → s.w < maxInt →
      (isWrite env s ev = true → (step env l s ev).state.w = s.w + 1) ∧
      (isWrite env s ev = false → (step env l s ev).state.w = s.w)) ∧
    (∀ (s0 : State) (evs : List Event), init env = some s0 →
      1 + (writeCount env l s0 evs : Int) ≤ maxInt →
        (run env l s0 evs).state.w = 1 + writeCount env l s0 evs ∧
        1 ≤ (run env l s0 evs).state.w ∧
        ∀ rq : Nat, ∃ q : Int, Intn rq (run env l s0 evs).state.w = some q ∧
          0 ≤ q ∧ q < (run env l s0 evs).state.w) := by
  refine ⟨fun s0 h0 => (init_spec env s0 h0).2.2.1, fun s ev hlo hhi => ⟨fun hwr => ?_, fun hwr => ?_⟩,
    fun s0 evs h0 hb => ?_⟩
  · have hmax : maxInt = 2 ^ 63 - 1 := rfl
    rw [step_w, if_pos hwr]
    exact wrapInt_of_range _ (by omega) (by omega)
  · rw [step_w]; simp [hwr]
  · have hw0 := (init_spec env s0 h0).2.2.1
    have hrun := run_w env l evs s0 (by rw [hw0]) (by rw [hw0]; exact hb)
    rw [hw0] at hrun
    have hpos : 1 ≤ (run env l s0 evs).state.w := by rw [hrun]; omega
    refine ⟨hrun, hpos, fun rq => ⟨(rq : Int) % (run env l s0 evs).state.w, ?_, ?_, ?_⟩⟩
    · simp [Intn, not_le.mpr (show (0 : Int) < (run env l s0 evs).state.w by omega)]
    · exact Int.emod_nonneg _ (by omega)
    · exact Int.emod_lt_of_pos _ (by omega)

/-- Witness for C6: after Hello, a name-drop, a chat rate, then a read-shaped and two
    write-shaped traffic ticks, two writes are counted and `w` is 3. -/
theorem traffic_counter_witness :
    init specEnv = some bootState ∧
    writeCount specEnv inbox chattyState
      [ Event.chatTick 0 (Context.trace 1) 4 1 0,
        Event.chatTick 0 (Context.trace 2) 5 2 0,
        Event.chatTick 0 (Context.trace 3) 6 2 0 ] = 2 ∧
    (run specEnv inbox bootState
      [ Event.recv (mkMsg Impositions.Hello (Chan.mk 7) "dns") 1,
        Event.recv (mkMsg Impositions.NameDrop (Chan.mk 21) "svcA") 2,
        Event.recv (mkMsg Impositions.Chat Chan.nil "10ms") 3,
        Event.chatTick 0 (Context.trace 1) 4 1 0,
        Event.chatTick 0 (Context.trace 2) 5 2 0,
        Event.chatTick 0 (Context.trace 3) 6 2 0 ]).state.w = 3 := by
  refine ⟨by decide, by decide, ?_⟩
  have h := ((traffic_counter specEnv inbox).2.2 bootState
    [ Event.recv (mkMsg Impositions.Hello (Chan.mk 7) "dns") 1,
      Event.recv (mkMsg Impositions.NameDrop (Chan.mk 21) "svcA") 2,
      Event.recv (mkMsg Impositions.Chat Chan.nil "10ms") 3,
      Event.chatTick 0 (Context.trace 1) 4 1 0,
      Event.chatTick 0 (Context.trace 2) 5 2 0,
      Event.chatTick 0 (Context.trace 3) 6 2 0 ] (by decide) (by decide)).1
  rw [h]
  decide

/-! ## C8: the timers at shutdown -/

theorem tickerArmed_append (heap : List Ticker) (t : Ticker) (i : Nat)
    (h : tickerArmed heap i = true) : tickerArmed (heap ++ [t]) i = true := by
  unfold tickerArmed at h ⊢
  simp only [List.get?_eq_getElem?] at h ⊢
  have hlt : i < heap.length := by
    by_contra hge
    rw [List.getElem?_eq_none (not_lt.mp hge)] at h
    cases h
  rw [List.getElem?_append_left hlt]
  exact h

theorem recv_tickers (env : Env) (l : Chan) (s : State) (m : Message) (now : Time) :
    (recv env l s m now).state.eurekaTicker = s.eurekaTicker ∧
    ((recv env l s m now).state.tickers = s.tickers ∨
      ∃ t, (recv env l s m now).state.tickers = s.tickers ++ [t]) := by
  unfold recv
  cases hk : m.Imposition <;> simp only []
  case Hello => split <;> simp
  case Chat =>
    cases hp : env.ParseDuration m.Intention with
    | none => simp
    | some d =>
      by_cases hr : Millisecond ≤ d ∧ d ≤ Hour
      · by_cases hd : d ≤ 0
        · simp [hr, NewTicker, hd]
        · simp [hr, NewTicker, hd]
      · simp [hr]
  all_goals simp

theorem step_tickers (env : Env) (l : Chan) (s : State) (ev : Event) :
    (step env l s ev).state.eurekaTicker = s.eurekaTicker ∧
    ((step env l s ev).state.tickers = s.tickers ∨
      ∃ t, (step env l s ev).state.tickers = s.tickers ++ [t]) := by
  cases ev with
  | recv m now => exact recv_tickers env l s m now
  | eurekaTick now vD vE => simp [step, eurekaTick]
  | chatTick seed ctx now r3 rq =>
    by_cases hc : env.Random s.microservices seed = Chan.nil
    · simp [step, chatTick, hc]
    · rcases mod_three_cases r3 with h | h | h
      · simp [step, chatTick, hc, h]
      · cases hq : Intn rq s.w <;> simp [step, chatTick, hc, h, hq]
      · simp [step, chatTick, hc, h]

theorem step_eureka_armed (env : Env) (l : Chan) (s : State) (ev : Event)
    (h : tickerArmed s.tickers s.eurekaTicker = true) :
    tickerArmed (step env l s ev).state.tickers (step env l s ev).state.eurekaTicker = true := by
  obtain ⟨h1, h2⟩ := step_tickers env l s ev
  rw [h1]
  rcases h2 with h2 | ⟨t, h2⟩
  · rw [h2]; exact h
  · rw [h2]; exact tickerArmed_append _ _ _ h

theorem recv_chat_armed (env : Env) (l : Chan) (s : State) (m : Message) (now : Time) :
    (isAcceptedChat env (Event.recv m now) = true →
      tickerArmed (recv env l s m now).state.tickers (recv env l s m now).state.chatTicker
        = true) ∧
    (isAcceptedChat env (Event.recv m now) = false →
      (recv env l s m now).state.tickers = s.tickers ∧
      (recv env l s m now).state.chatTicker = s.chatTicker) := by
  have hms : (0 : Int) < Millisecond := by decide
  unfold recv
  cases hk : m.Imposition <;> simp only [isAcceptedChat, hk]
  case Hello => by_cases hn : s.name = "" <;> simp [hn]
  case Chat =>
    cases hp : env.ParseDuration m.Intention with
    | none => simp
    | some d =>
      by_cases hr : Millisecond ≤ d ∧ d ≤ Hour
      · have hpos : ¬ d ≤ 0 := not_le.mpr (lt_of_lt_of_le hms hr.1)
        simp [hr, NewTicker, hpos, tickerArmed]
      · simp [hr]
  all_goals simp

theorem step_chat_armed (env : Env) (l : Chan) (s : State) (ev : Event) :
    (isAcceptedChat env ev = true →
      tickerArmed (step env l s ev).state.tickers (step env l s ev).state.chatTicker = true) ∧
    (isAcceptedChat env ev = false →
      (step env l s ev).state.tickers = s.tickers ∧
      (step env l s ev).state.chatTicker = s.chatTicker) := by
  cases ev with
  | recv m now => exact recv_chat_armed env l s m now
  | eurekaTick now vD vE => simp [step, eurekaTick, isAcceptedChat]
  | chatTick seed ctx now r3 rq =>
    refine ⟨fun h => by simp [isAcceptedChat] at h, fun _ => ?_⟩
    by_cases hc : env.Random s.microservices seed = Chan.nil
    · simp [step, chatTick, hc]
    · rcases mod_three_cases r3 with h | h | h
      · simp [step, chatTick, hc, h]
      · cases hq : Intn rq s.w <;> simp [step, chatTick, hc, h, hq]
      · simp [step, chatTick, hc, h]

theorem run_chat_armed (env : Env) (l : Chan) :
    ∀ (evs : List Event) (s : State), (run env l s evs).status = Status.running →
      tickerArmed (run env l s evs).state.tickers (run env l s evs).state.chatTicker
        = (tickerArmed s.tickers s.chatTicker || evs.any (isAcceptedChat env)) := by
  intro evs
  induction evs with
  | nil => intro s _; simp [run]
  | cons ev evs ih =>
    intro s hrun
    by_cases hen : enabled s ev = true
    · by_cases hst : (step env l s ev).status = Status.running
      · rw [run_cons_running env l s ev evs hen hst] at hrun ⊢
        have h2 := ih _ hrun
        simp only [] at h2 ⊢
        rw [h2, List.any_cons]
        obtain ⟨hy, hn⟩ := step_chat_armed env l s ev
        cases hacc : isAcceptedChat env ev
        · obtain ⟨h3, h4⟩ := hn hacc
          rw [h3, h4]
          simp
        · rw [hy hacc]
          simp
      · rw [run_cons_stop env l s ev evs hen hst] at hrun
        exact absurd hrun hst
    · have hd : enabled s ev = false := by simpa using hen
      rw [run_cons_disabled env l s ev evs hd] at hrun ⊢
      rw [ih s hrun, List.any_cons]
      cases ev with
      | recv m now => simp [enabled] at hd
      | eurekaTick now vD vE => simp [isAcceptedChat]
      | chatTick seed ctx now r3 rq => simp [isAcceptedChat]

/-- C8, as the code has it: handling a Goodbye stops no timer. The Goodbye branch leaves
    the ticker objects and both ticker variables untouched, so after it each timer is
    armed exactly if it was armed before. The discovery ticker, armed when the loop is
    entered and never stopped, is therefore still armed in the final state of every run;
    and when the Goodbye arrives in a run that is still going, the traffic ticker is
    armed in the final state exactly if a Chat message with an accepted payload (a
    duration from 1ms to 1h) had arrived before. -/
theorem goodbye_stops_no_timer (env : Env) (l : Chan) (s : State)
    (sender : Chan) (sent : Time) (ctx : Context) (p : String) (now : Time) :
    (step env l s (Event.recv ⟨Impositions.Goodbye, sender, sent, ctx, p⟩ now)).state.tickers
      = s.tickers ∧
    (step env l s (Event.recv ⟨Impositions.Goodbye, sender, sent, ctx, p⟩ now)).state.eurekaTicker
      = s.eurekaTicker ∧
    (step env l s (Event.recv ⟨Impositions.Goodbye, sender, sent, ctx, p⟩ now)).state.chatTicker
      = s.chatTicker ∧
    (∀ (s0 : State) (evs : List Event), init env = some s0 → s = (run env l s0 evs).state →
      tickerArmed
        (step env l s (Event.recv ⟨Impositions.Goodbye, sender, sent, ctx, p⟩ now)).state.tickers
        (step env l s (Event.recv ⟨Impositions.Goodbye, sender, sent, ctx, p⟩ now)).state.eurekaTicker
        = true) ∧
    (∀ (s0 : State) (evs : List Event), init env = some s0 →
      (run env l s0 evs).status = Status.running → s = (run env l s0 evs).state →
      tickerArmed
        (step env l s (Event.recv ⟨Impositions.Goodbye, sender, sent, ctx, p⟩ now)).state.tickers
        (step env l s (Event.recv ⟨Impositions.Goodbye, sender, sent, ctx, p⟩ now)).state.chatTicker
        = evs.any (isAcceptedChat env)) := by
  have ht : (step env l s
      (Event.recv ⟨Impositions.Goodbye, sender, sent, ctx, p⟩ now)).state.tickers = s.tickers := by
    simp [step, recv]
  have hc : (step env l s
      (Event.recv ⟨Impositions.Goodbye, sender, sent, ctx, p⟩ now)).state.chatTicker
      = s.chatTicker := by
    simp [step, recv]
  refine ⟨ht, by simp [step, recv], hc, ?_, ?_⟩
  · intro s0 evs h0 hs
    have harm : tickerArmed s.tickers s.eurekaTicker = true := by
      subst hs
      exact run_induction env l (fun t => tickerArmed t.tickers t.eurekaTicker = true)
        (fun t ev ht => step_eureka_armed env l t ev ht) evs s0
        (init_spec env s0 h0).2.2.2.2.2.2.1
    exact step_eureka_armed env l s _ harm
  · intro s0 evs h0 hrun hs
    rw [ht, hc, hs, run_chat_armed env l evs s0 hrun, (init_spec env s0 h0).2.2.2.2.2.2.2]
    simp

/-- Witness for C8 as amended: after Hello, a name-drop and Chat `"10ms"`, a Goodbye
    leaves the ticker objects as they were, and the traffic ticker is armed after it. -/
theorem goodbye_stops_no_timer_witness :
    (step specEnv inbox chattyState
      (Event.recv (mkMsg Impositions.Goodbye Chan.nil "") 8)).state.tickers
      = [⟨Second, true⟩, ⟨Hour, false⟩, ⟨10 * Millisecond, true⟩] ∧
    tickerArmed
      (step specEnv inbox chattyState
        (Event.recv (mkMsg Impositions.Goodbye Chan.nil "") 8)).state.tickers
      (step specEnv inbox chattyState
        (Event.recv (mkMsg Impositions.Goodbye Chan.nil "") 8)).state.chatTicker = true := by
  have h := goodbye_stops_no_timer specEnv inbox chattyState Chan.nil 0 Context.NilContext "" 8
  refine ⟨h.1.trans (by decide), ?_⟩
  exact (h.2.2.2.2 bootState
    [ Event.recv (mkMsg Impositions.Hello (Chan.mk 7) "dns") 1,
      Event.recv (mkMsg Impositions.NameDrop (Chan.mk 21) "svcA") 2,
      Event.recv (mkMsg Impositions.Chat Chan.nil "10ms") 3 ]
    (by decide) (by decide) rfl).trans (by decide)

/-- Counterexample to C8 as stated: after Hello, Chat `"10ms"` and Goodbye the loop has
    returned and both the discovery ticker and the traffic ticker are still armed. -/
theorem timers_still_armed_after_goodbye :
    (run specEnv inbox bootState
      [ Event.recv (mkMsg Impositions.Hello (Chan.mk 7) "dns") 1,
        Event.recv (mkMsg Impositions.Chat Chan.nil "10ms") 2,
        Event.recv (mkMsg Impositions.Goodbye Chan.nil "") 3 ]).status = Status.returned ∧
    tickerArmed
      (run specEnv inbox bootState
        [ Event.recv (mkMsg Impositions.Hello (Chan.mk 7) "dns") 1,
          Event.recv (mkMsg Impositions.Chat Chan.nil "10ms") 2,
          Event.recv (mkMsg Impositions.Goodbye Chan.nil "") 3 ]).state.tickers
      (run specEnv inbox bootState
        [ Event.recv (mkMsg Impositions.Hello (Chan.mk 7) "dns") 1,
          Event.recv (mkMsg Impositions.Chat Chan.nil "10ms") 2,
          Event.recv (mkMsg Impositions.Goodbye Chan.nil "") 3 ]).state.eurekaTicker = true ∧
    tickerArmed
      (run specEnv inbox bootState
        [ Event.recv (mkMsg Impositions.Hello (Chan.mk 7) "dns") 1,
          Event.recv (mkMsg Impositions.Chat Chan.nil "10ms") 2,
          Event.recv (mkMsg Impositions.Goodbye Chan.nil "") 3 ]).state.tickers
      (run specEnv inbox bootState
        [ Event.recv (mkMsg Impositions.Hello (Chan.mk 7) "dns") 1,
          Event.recv (mkMsg Impositions.Chat Chan.nil "10ms") 2,
          Event.recv (mkMsg Impositions.Goodbye Chan.nil "") 3 ]).state.chatTicker = true := by
  decide

/-! ## C9: which Hello sets the identity -/

theorem run_append_running (env : Env) (l : Chan) (rest : List Event) :
    ∀ (pre : List Event) (s : State), (run env l s pre).status = Status.running →
      (run env l s (pre ++ rest)).state = (run env l (run env l s pre).state rest).state := by
  intro pre
  induction pre with
  | nil => intro s _; simp [run]
  | cons ev evs ih =>
    intro s hrun
    by_cases hen : enabled s ev = true
    · by_cases hst : (step env l s ev).status = Status.running
      · rw [run_cons_running env l s ev evs hen hst] at hrun ⊢
        rw [List.cons_append, run_cons_running env l s ev (evs ++ rest) hen hst]
        exact ih _ hrun
      · rw [run_cons_stop env l s ev evs hen hst] at hrun
        exact absurd hrun hst
    · have hd : enabled s ev = false := by simpa using hen
      rw [run_cons_disabled env l s ev evs hd] at hrun ⊢
      rw [List.cons_append, run_cons_disabled env l s ev (evs ++ rest) hd]
      exact ih s hrun

theorem assignIdentity_unnamed :
    ∀ (evs : List Event) (ident : Chan × String), (∀ ev ∈ evs, isNamingHello ev = false) →
      ident.2 = "" → (assignIdentity ident evs).2 = "" := by
  intro evs
  induction evs with
  | nil => intro ident _ h; exact h
  | cons ev evs ih =>
    intro ident h hid
    have h1 := h ev (List.mem_cons_self _ _)
    have h2 : ∀ e ∈ evs, isNamingHello e = false := fun e he => h e (List.mem_cons_of_mem _ he)
    cases ev with
    | recv m now =>
      simp only [assignIdentity]
      by_cases hc : m.Imposition = Impositions.Hello ∧ ident.2 = ""
      · simp only [hc, and_self, if_true]
        apply ih _ h2
        have : m.Intention = "" := by
          simpa [isNamingHello, hc.1] using h1
        exact this
      · simp only [hc, if_false]
        exact ih _ h2 hid
    | eurekaTick now vD vE => exact ih _ h2 hid
    | chatTick seed ctx now r3 rq => exact ih _ h2 hid

theorem run_keeps_identity (env : Env) (l : Chan) (s : State) (h : s.name ≠ "")
    (evs : List Event) :
    (run env l s evs).state.name = s.name ∧ (run env l s evs).state.parent = s.parent :=
  run_induction env l (fun t => t.name = s.name ∧ t.parent = s.parent)
    (fun t ev ht => by
      have hn : t.name = s.name := ht.1
      have hp : t.parent = s.parent := ht.2
      have hne : t.name ≠ "" := by rw [hn]; exact h
      have hs := step_name_of_ne env l t ev hne
      exact ⟨hs.1.trans hn, hs.2.trans hp⟩) evs s ⟨rfl, rfl⟩

/-- C9, as the code has it: on every schedule in which a Hello with a non-empty payload
    arrives while the loop is still running and before any other such Hello, the name
    and the parent mailbox after the whole schedule are the payload and reply mailbox of
    that Hello; every later message, any later Hello included, leaves both unchanged. A
    Hello with an empty payload that arrives while the node is unnamed records its reply
    mailbox as parent but leaves the name empty, so it does not fix the identity. -/
theorem identity_set_by_first_naming_hello (env : Env) (l : Chan) (s0 : State)
    (pre post : List Event) (h : Message) (now : Time)
    (h0 : init env = some s0)
    (hpre : (run env l s0 pre).status = Status.running)
    (hnone : ∀ ev ∈ pre, isNamingHello ev = false)
    (hk : h.Imposition = Impositions.Hello) (hn : h.Intention ≠ "") :
    (run env l s0 (pre ++ Event.recv h now :: post)).state.name = h.Intention ∧
    (run env l s0 (pre ++ Event.recv h now :: post)).state.parent = h.ResponseChan ∧
    (∀ (s : State) (m : Message) (t : Time), s.name = "" → m.Imposition = Impositions.Hello →
      (step env l s (Event.recv m t)).state.name = m.Intention ∧
      (step env l s (Event.recv m t)).state.parent = m.ResponseChan) := by
  have hi := init_spec env s0 h0
  have hid := run_identity env l pre s0 hpre
  rw [hi.1, hi.2.1] at hid
  have hname : (run env l s0 pre).state.name = "" := by
    have := assignIdentity_unnamed pre (Chan.nil, "") hnone rfl
    rw [← hid] at this
    exact this
  have hstep := recv_identity env l (run env l s0 pre).state h now
  simp only [hk, hname, and_self, if_true] at hstep
  have hst : (step env l (run env l s0 pre).state (Event.recv h now)).status = Status.running := by
    simp [step, recv, hk, hname]
  have hN : (step env l (run env l s0 pre).state (Event.recv h now)).state.name = h.Intention :=
    congrArg Prod.snd hstep
  have hP : (step env l (run env l s0 pre).state (Event.recv h now)).state.parent
      = h.ResponseChan := congrArg Prod.fst hstep
  have hkeep := run_keeps_identity env l
    (step env l (run env l s0 pre).state (Event.recv h now)).state (by rw [hN]; exact hn) post
  rw [run_append_running env l _ pre s0 hpre,
    run_cons_running env l _ (Event.recv h now) post rfl hst]
  refine ⟨hkeep.1.trans hN, hkeep.2.trans hP, fun s m t hs hm => ?_⟩
  have hr := recv_identity env l s m t
  simp only [hm, hs, and_self, if_true] at hr
  exact ⟨congrArg Prod.snd hr, congrArg Prod.fst hr⟩

/-- Witness for C9 as amended: after a Hello with empty payload from mailbox 7, a Hello
    `"b"` from mailbox 8 and a Hello `"c"` from mailbox 9, the node is `"b"` with parent 8. -/
theorem identity_set_by_first_naming_hello_witness :
    (run specEnv inbox bootState
      ([Event.recv (mkMsg Impositions.Hello (Chan.mk 7) "") 1] ++
        Event.recv (mkMsg Impositions.Hello (Chan.mk 8) "b") 2 ::
          [Event.recv (mkMsg Impositions.Hello (Chan.mk 9) "c") 3])).state.name = "b" ∧
    (run specEnv inbox bootState
      ([Event.recv (mkMsg Impositions.Hello (Chan.mk 7) "") 1] ++
        Event.recv (mkMsg Impositions.Hello (Chan.mk 8) "b") 2 ::
          [Event.recv (mkMsg Impositions.Hello (Chan.mk 9) "c") 3])).state.parent = Chan.mk 8 := by
  have h := identity_set_by_first_naming_hello specEnv inbox bootState
    [Event.recv (mkMsg Impositions.Hello (Chan.mk 7) "") 1]
    [Event.recv (mkMsg Impositions.Hello (Chan.mk 9) "c") 3]
    (mkMsg Impositions.Hello (Chan.mk 8) "b") 2
    (by decide) (by decide) (by decide) rfl (by decide)
  exact ⟨h.1, h.2.1⟩

/-- Counterexample to C9 as stated: when the first Hello carries the empty string, the
    name and parent after the sequence are those of the second Hello, not of the first. -/
theorem first_hello_with_empty_name_is_overridden :
    (run specEnv inbox bootState
      [ Event.recv (mkMsg Impositions.Hello (Chan.mk 7) "") 1,
        Event.recv (mkMsg Impositions.Hello (Chan.mk 8) "b") 2 ]).state.name = "b" ∧
    (run specEnv inbox bootState
      [ Event.recv (mkMsg Impositions.Hello (Chan.mk 7) "") 1,
        Event.recv (mkMsg Impositions.Hello (Chan.mk 8) "b") 2 ]).state.parent = Chan.mk 8 ∧
    (run specEnv inbox bootState
      [ Event.recv (mkMsg Impositions.Hello (Chan.mk 7) "") 1,
        Event.recv (mkMsg Impositions.Hello (Chan.mk 8) "b") 2 ]).state.name ≠ "" ∧
    (run specEnv inbox bootState
      [ Event.recv (mkMsg Impositions.Hello (Chan.mk 7) "") 1,
        Event.recv (mkMsg Impositions.Hello (Chan.mk 8) "b") 2 ]).state.parent ≠ Chan.mk 7 := by
  decide

/-! ## C10: every write puts a new key -/

theorem fmtDigits_eq : ∀ (fuel u : Nat) (buf : List Char), u ≤ fuel →
    fmtDigits fuel u buf = (decDigits u).map digitByte ++ buf := by
  intro fuel
  induction fuel with
  | zero =>
    intro u buf h
    have : u = 0 := by omega
    subst this
    simp [fmtDigits, decDigits]
  | succ f ih =>
    intro u buf h
    unfold fmtDigits
    by_cases h10 : 10 ≤ u
    · simp only [h10, if_true]
      rw [ih (u / 10) _ (by omega)]
      have hu : u ≠ 0 := by omega
      have hu10 : u / 10 ≠ 0 := by omega
      have hd : Nat.digits 10 u = (u % 10) :: Nat.digits 10 (u / 10) :=
        Nat.digits_def' (by norm_num) (by omega)
      simp [decDigits, hu, hu10, hd]
    · simp only [h10, if_false]
      by_cases hu : u = 0
      · subst hu; simp [decDigits]
      · have hd : Nat.digits 10 u = [u] := Nat.digits_of_lt 10 u hu (by omega)
        simp [decDigits, hu, hd]

theorem fmtNat_eq (u : Nat) : fmtNat u = (decDigits u).map digitByte := by
  unfold fmtNat
  rw [fmtDigits_eq u u [] (le_refl _)]
  simp

theorem decDigits_lt (u d : Nat) (h : d ∈ decDigits u) : d < 10 := by
  unfold decDigits at h
  by_cases hu : u = 0
  · simp [hu] at h; omega
  · simp only [hu, if_false, List.mem_reverse] at h
    exact Nat.digits_lt_base (by norm_num) h

theorem decDigits_value (u : Nat) : Nat.ofDigits 10 (decDigits u).reverse = u := by
  unfold decDigits
  by_cases hu : u = 0
  · subst hu; simp
  · simp [hu, Nat.ofDigits_digits]

theorem digitByte_inj : ∀ d < 10, ∀ e < 10, digitByte d = digitByte e → d = e := by
  decide

theorem digitByte_ne_space : ∀ d < 10, (digitByte d != Char.ofNat 32) = true := by
  decide

theorem map_digitByte_inj : ∀ (l1 l2 : List Nat), (∀ x ∈ l1, x < 10) → (∀ x ∈ l2, x < 10) →
    l1.map digitByte = l2.map digitByte → l1 = l2 := by
  intro l1
  induction l1 with
  | nil =>
    intro l2 _ _ h
    cases l2 with
    | nil => rfl
    | cons y ys => simp at h
  | cons x xs ih =>
    intro l2 h1 h2 h
    cases l2 with
    | nil => simp at h
    | cons y ys =>
      simp only [List.map_cons, List.cons.injEq] at h
      have hxy : x = y := digitByte_inj x (h1 x (List.mem_cons_self _ _)) y
        (h2 y (List.mem_cons_self _ _)) h.1
      have := ih ys (fun z hz => h1 z (List.mem_cons_of_mem _ hz))
        (fun z hz => h2 z (List.mem_cons_of_mem _ hz)) h.2
      rw [hxy, this]

theorem fmtNat_inj (a b : Nat) (h : fmtNat a = fmtNat b) : a = b := by
  rw [fmtNat_eq, fmtNat_eq] at h
  have hd : decDigits a = decDigits b :=
    map_digitByte_inj _ _ (decDigits_lt a) (decDigits_lt b) h
  have ha := decDigits_value a
  rw [hd, decDigits_value b] at ha
  exact ha.symm

theorem fmtNat_length (n : Nat) (hn : n ≠ 0) :
    n < 10 ^ (fmtNat n).length ∧ 10 ^ (fmtNat n).length ≤ 10 * n := by
  have hl : (fmtNat n).length = (Nat.digits 10 n).length := by
    simp [fmtNat_eq, decDigits, hn]
  rw [hl]
  exact ⟨Nat.lt_base_pow_length_digits (by norm_num),
    Nat.base_pow_length_digits_le 10 n (by norm_num) hn⟩

theorem fmtNat_length_pos (n : Nat) : 1 ≤ (fmtNat n).length := by
  by_cases hn : n = 0
  · subst hn; decide
  · have h := (fmtNat_length n hn).1
    by_contra hc
    have h0 : (fmtNat n).length = 0 := by omega
    rw [h0] at h
    omega

theorem fmtNat_length_sq (n : Nat) :
    2 * (fmtNat n).length ≤ (fmtNat (n * n)).length + 1 ∧
    (fmtNat (n * n)).length ≤ 2 * (fmtNat n).length := by
  by_cases hn : n = 0
  · subst hn; decide
  · have hnn : n * n ≠ 0 := Nat.mul_ne_zero hn hn
    obtain ⟨h1, h2⟩ := fmtNat_length n hn
    obtain ⟨h3, h4⟩ := fmtNat_length (n * n) hnn
    generalize (fmtNat n).length = L at h1 h2
    generalize (fmtNat (n * n)).length = M at h3 h4
    constructor
    · have h5 : 10 ^ L * 10 ^ L ≤ (10 * n) * (10 * n) := Nat.mul_le_mul h2 h2
      have h6 : (10 : Nat) ^ (2 * L) < 10 ^ (M + 2) := by
        calc (10 : Nat) ^ (2 * L) = 10 ^ L * 10 ^ L := by rw [two_mul, pow_add]
          _ ≤ (10 * n) * (10 * n) := h5
          _ = 100 * (n * n) := by ring
          _ < 100 * 10 ^ M := by omega
          _ = 10 ^ (M + 2) := by rw [pow_add]; ring
      have := (Nat.pow_lt_pow_iff_right (by norm_num : 1 < 10)).mp h6
      omega
    · have h5 : n * n < 10 ^ L * 10 ^ L := Nat.mul_self_lt_mul_self h1
      have h6 : (10 : Nat) ^ M < 10 ^ (2 * L + 1) := by
        calc (10 : Nat) ^ M ≤ 10 * (n * n) := h4
          _ < 10 * (10 ^ L * 10 ^ L) := by omega
          _ = 10 ^ (2 * L + 1) := by rw [two_mul, pow_add, pow_add]; ring
      have := (Nat.pow_lt_pow_iff_right (by norm_num : 1 < 10)).mp h6
      omega

theorem fmtNat_pair_inj (a b : Nat)
    (h : fmtNat a ++ fmtNat (a * a) = fmtNat b ++ fmtNat (b * b)) : a = b := by
  have hl := congrArg List.length h
  simp only [List.length_append] at hl
  have ha := fmtNat_length_sq a
  have hb := fmtNat_length_sq b
  have hpa := fmtNat_length_pos a
  have hpb := fmtNat_length_pos b
  have hlen : (fmtNat a).length = (fmtNat b).length := by omega
  exact fmtNat_inj a b (List.append_inj h hlen).1

theorem fmtNat_no_space (n : Nat) : ∀ c ∈ fmtNat n, (c != Char.ofNat 32) = true := by
  intro c hc
  rw [fmtNat_eq] at hc
  obtain ⟨d, hd, rfl⟩ := List.mem_map.mp hc
  exact digitByte_ne_space d (decDigits_lt n d hd)

theorem why_no_space : ∀ c ∈ "Why".data, (c != Char.ofNat 32) = true := by
  decide

theorem fmtInt_natCast (n : Nat) : fmtInt (n : Int) = String.mk (fmtNat n) := by
  have : ¬ ((n : Int) < 0) := by omega
  simp [fmtInt, this]

theorem whyKey_data (n : Nat) (h : n * n < 2 ^ 63) :
    (whyKey (n : Int)).data = "Why".data ++ fmtNat n ++ fmtNat (n * n) := by
  have hw : wrapInt ((n : Int) * n) = ((n * n : Nat) : Int) := by
    rw [wrapInt_of_range _
      (le_trans (by norm_num) (mul_nonneg (Nat.cast_nonneg n) (Nat.cast_nonneg n)))
      (by exact_mod_cast h)]
    push_cast
    rfl
  simp only [whyKey, hw, fmtInt_natCast, String.data_append]

theorem whyPayload_data (n : Nat) (h : n * n < 2 ^ 63) :
    (whyPayload (n : Int)).data = "Why".data ++ fmtNat n ++ fmtNat (n * n) ++ " me".data := by
  have hw : wrapInt ((n : Int) * n) = ((n * n : Nat) : Int) := by
    rw [wrapInt_of_range _
      (le_trans (by norm_num) (mul_nonneg (Nat.cast_nonneg n) (Nat.cast_nonneg n)))
      (by exact_mod_cast h)]
    push_cast
    rfl
  simp only [whyPayload, hw, fmtInt_natCast, String.data_append]

theorem keyOf_whyPayload (n : Nat) (h : n * n < 2 ^ 63) :
    keyOf (whyPayload (n : Int)) = whyKey (n : Int) := by
  apply String.ext
  rw [whyKey_data n h]
  simp only [keyOf, whyPayload_data n h]
  rw [List.takeWhile_append_of_pos]
  · have : List.takeWhile (fun c => c != Char.ofNat 32) " me".data = [] := by decide
    rw [this, List.append_nil]
  · intro c hc
    rcases List.mem_append.mp hc with hc | hc
    · rcases List.mem_append.mp hc with hc | hc
      · exact why_no_space c hc
      · exact fmtNat_no_space n c hc
    · exact fmtNat_no_space (n * n) c hc

theorem whyKey_inj (a b : Nat) (ha : a * a < 2 ^ 63) (hb : b * b < 2 ^ 63)
    (h : whyKey (a : Int) = whyKey (b : Int)) : a = b := by
  have hd := congrArg String.data h
  rw [whyKey_data a ha, whyKey_data b hb, List.append_assoc, List.append_assoc] at hd
  exact fmtNat_pair_inj a b (List.append_cancel_left hd)

theorem whyPayload_inj (a b : Nat) (ha : a * a < 2 ^ 63) (hb : b * b < 2 ^ 63)
    (h : whyPayload (a : Int) = whyPayload (b : Int)) : a = b := by
  have hk := congrArg keyOf h
  rw [keyOf_whyPayload a ha, keyOf_whyPayload b hb] at hk
  exact whyKey_inj a b ha hb hk

theorem tickPuts_eq (env : Env) (l : Chan) (s : State) (ev : Event) :
    tickPuts env l s ev = if isWrite env s ev = true then [whyPayload s.w] else [] := by
  cases ev with
  | recv m now => simp [tickPuts, isWrite]
  | eurekaTick now vD vE => simp [tickPuts, isWrite]
  | chatTick seed ctx now r3 rq =>
    by_cases hc : env.Random s.microservices seed = Chan.nil
    · simp [tickPuts, step, chatTick, isWrite, hc, sends]
    · rcases mod_three_cases r3 with h | h | h
      · simp [tickPuts, step, chatTick, isWrite, hc, h, sends]
      · cases hq : Intn rq s.w <;> simp [tickPuts, step, chatTick, isWrite, hc, h, hq, sends]
      · simp [tickPuts, step, chatTick, isWrite, hc, h, sends]

theorem range_succ_map_shift (f : Int → String) (w : Int) (n : Nat) :
    (List.range (1 + n)).map (fun i : Nat => f (w + (i : Int)))
      = f w :: (List.range n).map (fun i : Nat => f (w + 1 + (i : Int))) := by
  rw [Nat.add_comm, List.range_succ_eq_map]
  simp only [List.map_cons, List.map_map, Nat.cast_zero, add_zero]
  congr 1
  apply List.map_congr_left
  intro i _
  show f (w + ((i + 1 : Nat) : Int)) = f (w + 1 + (i : Int))
  congr 1
  push_cast
  ring

theorem writePayloads_eq (env : Env) (l : Chan) :
    ∀ (evs : List Event) (s : State), 1 ≤ s.w → s.w + writeCount env l s evs ≤ maxInt →
      writePayloads env l s evs
        = (List.range (writeCount env l s evs)).map (fun i : Nat => whyPayload (s.w + (i : Int))) := by
  intro evs
  induction evs with
  | nil => intro s _ _; simp [writePayloads, writeCount]
  | cons ev evs ih =>
    intro s h1 h2
    have hmax : maxInt = 2 ^ 63 - 1 := rfl
    by_cases hen : enabled s ev = true
    · have hsw := step_w env l s ev
      have htp := tickPuts_eq env l s ev
      by_cases hst : (step env l s ev).status = Status.running
      · simp only [writeCount, writePayloads, hen, if_true, hst] at h2 ⊢
        by_cases hwr : isWrite env s ev = true
        · simp only [hwr, if_true] at hsw h2 htp ⊢
          have hw1 : wrapInt (s.w + 1) = s.w + 1 := wrapInt_of_range _ (by omega) (by omega)
          rw [hw1] at hsw
          have := ih (step env l s ev).state (by rw [hsw]; omega) (by rw [hsw]; omega)
          rw [this, hsw, htp, range_succ_map_shift whyPayload s.w]
          rfl
        · simp only [hwr] at hsw h2 htp ⊢
          have := ih (step env l s ev).state (by rw [hsw]; simpa using h1)
            (by rw [hsw]; simpa using h2)
          rw [this, hsw, htp]
          simp
      · have hwr : isWrite env s ev = false := by
          by_contra hc
          exact hst (step_write_running env l s ev (by simpa using hc))
        cases hs : (step env l s ev).status
        · exact absurd hs hst
        all_goals simp [writeCount, writePayloads, hen, hwr, hs, htp]
    · have hd : enabled s ev = false := by simpa using hen
      simp only [writeCount, writePayloads, hd] at h2 ⊢
      exact ih s h1 (by simpa using h2)

theorem sq_lt_of_le_bound (n : Nat) (h : n ≤ 3037000499) : n * n < 2 ^ 63 := by
  have h2 : n * n ≤ 3037000499 * 3037000499 := Nat.mul_le_mul h h
  have h3 : 3037000499 * 3037000499 < 2 ^ 63 := by norm_num
  exact lt_of_le_of_lt h2 h3

theorem writePayloads_from_init (env : Env) (l : Chan) (s0 : State) (evs : List Event)
    (h0 : init env = some s0) (hb : writeCount env l s0 evs ≤ 3037000499) :
    writePayloads env l s0 evs
      = (List.range (writeCount env l s0 evs)).map
          (fun i : Nat => whyPayload ((1 + i : Nat) : Int)) := by
  have hw0 := (init_spec env s0 h0).2.2.1
  have hmax : maxInt = 2 ^ 63 - 1 := rfl
  have h := writePayloads_eq env l evs s0 (by rw [hw0]) (by rw [hw0, hmax]; omega)
  rw [h, hw0]
  apply List.map_congr_left
  intro i _
  push_cast
  rfl


theorem keyOf_whyPayload_inj (a b : Nat) (ha : a * a < 2 ^ 63) (hb : b * b < 2 ^ 63)
    (h : keyOf (whyPayload (a : Int)) = keyOf (whyPayload (b : Int))) : a = b :=
  whyKey_inj a b ha hb
    ((keyOf_whyPayload a ha).symm.trans (h.trans (keyOf_whyPayload b hb)))

theorem sq_lt_of_mem_range (c x : Nat) (hb : c ≤ 3037000499) (hx : x ∈ List.range c) :
    (1 + x) * (1 + x) < 2 ^ 63 := by
  have hlt := List.mem_range.mp hx
  exact sq_lt_of_le_bound (1 + x) (by omega)

theorem writeKeys_from_init (env : Env) (l : Chan) (s0 : State) (evs : List Event)
    (h0 : init env = some s0) (hb : writeCount env l s0 evs ≤ 3037000499) :
    (writePayloads env l s0 evs).map keyOf
      = (List.range (writeCount env l s0 evs)).map
          (fun i : Nat => whyKey ((1 + i : Nat) : Int)) := by
  rw [writePayloads_from_init env l s0 evs h0 hb, List.map_map]
  apply List.map_congr_left
  intro i hi
  exact keyOf_whyPayload (1 + i) (sq_lt_of_mem_range _ i hb hi)

/-- C10: the write payload `w |-> "Why" ++ dec(w) ++ dec(w*w) ++ " me"` and the key in
    front of its space are injective on the naturals whose square fits an `int`; and
    since the k-th write-shaped tick of a run uses `w = k`, the Put messages emitted by
    the write-shaped ticks of any run (with at most 3037000499 writes, so that `w*w` does
    not overflow) carry pairwise different payloads and pairwise different keys. -/
theorem every_write_puts_a_new_key (env : Env) (l : Chan) :
    (∀ a b : Nat, a * a < 2 ^ 63 → b * b < 2 ^ 63 →
      whyPayload (a : Int) = whyPayload (b : Int) → a = b) ∧
    (∀ a b : Nat, a * a < 2 ^ 63 → b * b < 2 ^ 63 →
      keyOf (whyPayload (a : Int)) = keyOf (whyPayload (b : Int)) → a = b) ∧
    (∀ (s0 : State) (evs : List Event), init env = some s0 →
      writeCount env l s0 evs ≤ 3037000499 →
        writePayloads env l s0 evs
          = (List.range (writeCount env l s0 evs)).map
              (fun i : Nat => whyPayload ((1 + i : Nat) : Int)) ∧
        (writePayloads env l s0 evs).Nodup ∧
        ((writePayloads env l s0 evs).map keyOf).Nodup) := by
  refine ⟨fun a b ha hb h => whyPayload_inj a b ha hb h,
    fun a b ha hb h => keyOf_whyPayload_inj a b ha hb h, fun s0 evs h0 hb => ?_⟩
  have heq := writePayloads_from_init env l s0 evs h0 hb
  have hkeys := writeKeys_from_init env l s0 evs h0 hb
  refine ⟨heq, ?_, ?_⟩
  · rw [heq]
    apply List.Nodup.map_on _ (List.nodup_range _)
    intro x hx y hy hxy
    have h1 : 1 + x = 1 + y := whyPayload_inj (1 + x) (1 + y)
      (sq_lt_of_mem_range _ x hb hx) (sq_lt_of_mem_range _ y hb hy) hxy
    exact Nat.add_left_cancel h1
  · rw [hkeys]
    apply List.Nodup.map_on _ (List.nodup_range _)
    intro x hx y hy hxy
    have h1 : 1 + x = 1 + y := whyKey_inj (1 + x) (1 + y)
      (sq_lt_of_mem_range _ x hb hx) (sq_lt_of_mem_range _ y hb hy) hxy
    exact Nat.add_left_cancel h1

/-- Witness for C10: two write-shaped ticks after Hello, a name-drop and Chat `"10ms"`
    emit the payloads `"Why11 me"` and `"Why24 me"`, with keys `"Why11"` and `"Why24"`. -/
theorem every_write_puts_a_new_key_witness :
    writePayloads specEnv inbox chattyState
      [ Event.chatTick 0 (Context.trace 1) 4 2 0,
        Event.chatTick 0 (Context.trace 2) 5 2 0 ] = ["Why11 me", "Why24 me"] ∧
    ["Why11 me", "Why24 me"].map keyOf = ["Why11", "Why24"] ∧
    (∀ a b : Nat, a * a < 2 ^ 63 → b * b < 2 ^ 63 →
      whyPayload (a : Int) = whyPayload (b : Int) → a = b) ∧
    (writePayloads specEnv inbox bootState
      [ Event.recv (mkMsg Impositions.Hello (Chan.mk 7) "dns") 1,
        Event.recv (mkMsg Impositions.NameDrop (Chan.mk 21) "svcA") 2,
        Event.recv (mkMsg Impositions.Chat Chan.nil "10ms") 3,
        Event.chatTick 0 (Context.trace 1) 4 2 0,
        Event.chatTick 0 (Context.trace 2) 5 2 0 ]).Nodup :=
  ⟨by decide, by decide, (every_write_puts_a_new_key specEnv inbox).1,
    ((every_write_puts_a_new_key specEnv inbox).2.2 bootState
      [ Event.recv (mkMsg Impositions.Hello (Chan.mk 7) "dns") 1,
        Event.recv (mkMsg Impositions.NameDrop (Chan.mk 21) "svcA") 2,
        Event.recv (mkMsg Impositions.Chat Chan.nil "10ms") 3,
        Event.chatTick 0 (Context.trace 1) 4 2 0,
        Event.chatTick 0 (Context.trace 2) 5 2 0 ] (by decide) (by decide)).2.1⟩

/-! ## C7: reads and the keys already put -/

/-- C7, the code at the failing input. In the initial state `w` is 1, so the first
    read-shaped tick can only draw `q = 0`: it asks for `"Why00"` although no Put has
    been emitted. After one write, which puts `"Why11"`, a read-shaped tick drawing
    `q = 0` again asks for `"Why00"`. In every run the writes put the keys of
    `w = 1, 2, ...`, never the key of `q = 0`. -/
theorem read_of_a_key_never_put :
    sends (run specEnv inbox chattyState [Event.chatTick 0 (Context.trace 1) 4 1 0]).out
      = [(Chan.mk 21, ⟨Impositions.GetRequest, inbox, 4, Context.trace 1, "Why00"⟩)] ∧
    sends (run specEnv inbox chattyState
      [ Event.chatTick 0 (Context.trace 1) 4 2 0,
        Event.chatTick 0 (Context.trace 2) 5 1 0 ]).out
      = [ (Chan.mk 21, ⟨Impositions.Put, inbox, 4, Context.trace 1, "Why11 me"⟩),
          (Chan.mk 21, ⟨Impositions.GetRequest, inbox, 5, Context.trace 2, "Why00"⟩) ] ∧
    keyOf "Why11 me" = "Why11" ∧
    (∀ (env : Env) (l : Chan) (s0 : State) (evs : List Event), init env = some s0 →
      writeCount env l s0 evs ≤ 3037000499 →
        whyKey ((0 : Nat) : Int) ∉ (writePayloads env l s0 evs).map keyOf) := by
  refine ⟨by decide, by decide, by decide, fun env l s0 evs h0 hb hmem => ?_⟩
  rw [writeKeys_from_init env l s0 evs h0 hb] at hmem
  obtain ⟨i, hi, hk⟩ := List.mem_map.mp hmem
  have h1 : 1 + i = 0 :=
    whyKey_inj (1 + i) 0 (sq_lt_of_mem_range _ i hb hi) (by norm_num) hk
  exact absurd h1 (by omega)

end Denominator
